import Mathlib

/-!
Verification development for the trading-game simulator
(`trading_simulation.py`).

The Python code computes with floating-point numbers; it is embedded here
exactly over the real numbers `ℝ` (the code uses the fractional power
`** 1.8` and `math.sin`, so the rationals do not suffice and most
definitions are noncomputable).  The single global pseudo-random stream of
the `random` module is modelled as an explicit stream of uniform draws in
`[0, 1)` threaded through every operation in the order the source consumes
them:

* `random.random()` consumes one draw `x`;
* `random.randint(a, b)` is modelled as `a + ⌊x * (b + 1 - a)⌋`, which is
  a uniform element of `[a, b]` when `x ∈ [0, 1)`;
* `random.choice([-1, 1])` is modelled as `-1` when `x < 1/2` and `1`
  otherwise;
* `random.choices([0..5], weights=[10,30,25,20,10,5])` is modelled by
  cumulative-weight inversion of one draw.
-/

noncomputable section

/-- `TradingGameSimulator.ROUND_DURATION_CANDLES`. -/
def ROUND_DURATION_CANDLES : ℕ := 470

/-- `TradingGameSimulator.GRACE_PERIOD_CANDLES`. -/
def GRACE_PERIOD_CANDLES : ℕ := 150

/-- `TradingGameSimulator.RAMP_UP_PERIOD`. -/
def RAMP_UP_PERIOD : ℕ := 75

/-- `TradingGameSimulator.TRADING_FEE_RATE`. -/
def TRADING_FEE_RATE : ℝ := 0.002

/-- `TradingGameSimulator.POSITION_SIZE_RATIO` (0.2, 20% of balance per trade). -/
def positionSizeRatio : ℝ := 0.2

/-- One OHLC candle, as appended to `data` in
`generate_realistic_price_data`. -/
structure Candle where
  candle : ℕ
  open_price : ℝ
  high_price : ℝ
  low_price : ℝ
  close_price : ℝ

/-- Default candle used for the total model of Python list indexing
(`price_data[i]`); every theorem that depends on an indexed value carries
hypotheses keeping the index in range, where the Python code would
otherwise raise `IndexError`. -/
def dummyCandle : Candle := ⟨0, 0, 0, 0, 0⟩

/-- `price_data[i]['close']`. -/
def closeAt (data : List Candle) (i : ℕ) : ℝ :=
  (data.getD i dummyCandle).close_price

/-- `math.copysign(1, x)` for a real argument (the sign bit of a float
`-0.0` has no real counterpart; at `x = 0` the result is `1`). -/
def copysign1 (x : ℝ) : ℝ := if x < 0 then -1 else 1

/-- The body of the candle loop of `generate_realistic_price_data`:
one candle built from the running price `price`, the loop index `i`, and
the global draw stream `u`.  Draws 0–6 of `u` are the pre-loop draws
(initial price, the three periods, the three phases); iteration `i`
consumes draws `7 + 7*i .. 7 + 7*i + 6` (volatility, direction choice,
random factor, close fraction, wick multiplier, high wick, low wick). -/
def mkCandle (u : ℕ → ℝ) (price : ℝ) (i : ℕ) : Candle :=
  let base_period := 100 + u 1 * 100
  let medium_period := 30 + u 2 * 20
  let short_period := 8 + u 3 * 8
  let base_phase := u 4 * Real.pi * 2
  let medium_phase := u 5 * Real.pi * 2
  let short_phase := u 6 * Real.pi * 2
  let base_trend := Real.sin ((i * 2 * Real.pi / base_period) + base_phase) * 0.15
  let medium_trend := Real.sin ((i * 2 * Real.pi / medium_period) + medium_phase) * 0.08
  let short_trend := Real.sin ((i * 2 * Real.pi / short_period) + short_phase) * 0.04
  let trend_wave := base_trend + medium_trend + short_trend
  let off := 7 + 7 * i
  let volatility := 0.02 + u off * 0.06
  let direction := if u (off + 1) < 1/2 then (-1 : ℝ) else 1
  let random_factor := (u (off + 2) - 0.5) * 2
  let final_direction := direction + trend_wave + random_factor * 0.3
  let move := price * volatility * copysign1 final_direction
  let open_price := price
  let close_price := max 0.01 (open_price + move * (0.5 + u (off + 3) * 0.5))
  let wick_multiplier := 0.3 + u (off + 4) * 0.4
  let high_price := max open_price close_price + |move| * wick_multiplier * u (off + 5)
  let low_price := max 0.01 (min open_price close_price - |move| * wick_multiplier * u (off + 6))
  ⟨i, open_price, high_price, low_price, close_price⟩

/-- The candle loop of `generate_realistic_price_data`:
`n` remaining iterations, running price `price`, loop index `i`
(`price = close_price` of the previous candle). -/
def genLoop (u : ℕ → ℝ) : ℕ → ℝ → ℕ → List Candle
  | 0, _, _ => []
  | n + 1, price, i =>
    let c := mkCandle u price i
    c :: genLoop u n c.close_price (i + 1)

/-- `generate_realistic_price_data`, as a function of the (already seeded)
uniform draw stream: 470 candles starting from price `10 + u 0 * 5`. -/
def generate_realistic_price_data (u : ℕ → ℝ) : List Candle :=
  genLoop u ROUND_DURATION_CANDLES (10 + u 0 * 5) 0

/-- Modelled from the spec: the library pseudo-random generator that
`random.seed(seed)` re-initialises is not part of this repository; the
spec requires only that the reseeded stream is a deterministic function
of the seed, producing uniform draws in `[0, 1)`. -/
def prngFromSeed (s : ℕ) : ℕ → ℝ :=
  fun n => (((s + n) % 1000 : ℕ) : ℝ) / 1000

/-- The seeding header of `generate_realistic_price_data`:
`if seed: random.seed(seed); np.random.seed(seed)`.  A `None` seed and a
zero seed are both falsy in Python, so in those two cases the body runs
on the pre-existing (`prior`) global stream; otherwise it runs on the
stream re-initialised from the seed. -/
def generate_with_seed : Option ℕ → (ℕ → ℝ) → List Candle
  | none, prior => generate_realistic_price_data prior
  | some 0, prior => generate_realistic_price_data prior
  | some (s + 1), _ => generate_realistic_price_data (prngFromSeed (s + 1))

/-- The `base_chance` local of `calculate_liquidation_probability`: a
linear ramp from 0 to 0.0003 over `RAMP_UP_PERIOD` candles measured from
the end of the grace period (natural subtraction matches the source,
which only reaches this point when `candle_num ≥ GRACE_PERIOD_CANDLES`). -/
def baseChance (candle_num : ℕ) : ℝ :=
  if candle_num - GRACE_PERIOD_CANDLES < RAMP_UP_PERIOD then
    0.0003 * (((candle_num - GRACE_PERIOD_CANDLES : ℕ) : ℝ) / (RAMP_UP_PERIOD : ℝ))
  else 0.0003

/-- The `time_risk` term: only added when a position duration was passed
(`position_duration is not None`) and it exceeds 60 candles. -/
def timeRisk (position_duration : Option ℝ) : ℝ :=
  match position_duration with
  | none => 0
  | some d => if 60 < d then min 0.004 (((d - 60) / 200) ^ (1.8 : ℝ) * 0.006) else 0

/-- The `size_risk` term.  In the source it sits inside the
`position_duration is not None` block; the truthiness guard
`position_size_ratio and ...` is subsumed by `r > 0.7` (which forces
`r ≠ 0`). -/
def sizeRisk (position_duration position_size_ratio : Option ℝ) : ℝ :=
  match position_duration, position_size_ratio with
  | some _, some r => if 0.7 < r then min 0.0005 ((r - 0.7) * 0.0005) else 0
  | _, _ => 0

/-- The `greed_risk` term.  In the source it sits inside the
`position_duration is not None` block; the truthiness guard
`pnl_percent and ...` is subsumed by `p > 0.3` (which forces `p ≠ 0`). -/
def greedRisk (position_duration pnl_percent : Option ℝ) : ℝ :=
  match position_duration, pnl_percent with
  | some _, some p => if 0.3 < p then min 0.0008 ((p - 0.3) * 0.001) else 0
  | _, _ => 0

/-- The `total_risk` accumulated by `calculate_liquidation_probability`
before the random multiplier and the 1% cap are applied. -/
def composedRisk (candle_num : ℕ)
    (position_duration position_size_ratio pnl_percent : Option ℝ) : ℝ :=
  baseChance candle_num + timeRisk position_duration +
    sizeRisk position_duration position_size_ratio +
    greedRisk position_duration pnl_percent

/-- `calculate_liquidation_probability`.  The uniform multiplier drawn by
`random.random()` inside the source (`0.7 + random.random() * 0.8`) is
passed explicitly as `random_multiplier`; the stream-threaded wrapper
`calcLiqProbRng` below performs the draw. -/
def calculate_liquidation_probability (candle_num : ℕ)
    (position_duration position_size_ratio pnl_percent : Option ℝ)
    (random_multiplier : ℝ) : ℝ :=
  if candle_num < GRACE_PERIOD_CANDLES then 0
  else
    let total_risk := composedRisk candle_num position_duration position_size_ratio pnl_percent
    let total_risk :=
      if GRACE_PERIOD_CANDLES ≤ candle_num then total_risk * random_multiplier else total_risk
    min 0.01 total_risk

/-- The single global stream of the Python `random` module: the
underlying sequence `u` of uniform draws and the position `k` of the
next draw. -/
structure Rng where
  u : ℕ → ℝ
  k : ℕ

/-- `random.random()`: one uniform draw, advancing the stream. -/
def Rng.next (s : Rng) : ℝ × Rng := (s.u s.k, ⟨s.u, s.k + 1⟩)

/-- All draws of the stream lie in `[0, 1)`. -/
def Rng.Valid (s : Rng) : Prop := ∀ n, 0 ≤ s.u n ∧ s.u n < 1

/-- `random.randint(a, b)` (both bounds inclusive), by inverse-CDF
sampling of one draw. -/
def randIntNat (s : Rng) (a b : ℕ) : ℕ × Rng :=
  let (x, s') := s.next
  (a + ⌊x * ((b : ℝ) + 1 - (a : ℝ))⌋₊, s')

/-- `calculate_liquidation_probability` with the multiplier drawn from
the stream.  In the source the early grace-period `return 0` happens
before the multiplier draw, so below the grace period no draw is
consumed. -/
def calcLiqProbRng (candle_num : ℕ)
    (position_duration position_size_ratio pnl_percent : Option ℝ)
    (s : Rng) : ℝ × Rng :=
  if candle_num < GRACE_PERIOD_CANDLES then
    (calculate_liquidation_probability candle_num position_duration
      position_size_ratio pnl_percent 1, s)
  else
    let (x, s') := s.next
    (calculate_liquidation_probability candle_num position_duration
      position_size_ratio pnl_percent (0.7 + x * 0.8), s')

/-- `check_liquidation`: draw the probability, then one more uniform
draw, and liquidate when the draw is strictly below the probability. -/
def check_liquidation (candle_num : ℕ)
    (position_duration position_size_ratio pnl_percent : Option ℝ)
    (s : Rng) : Bool × Rng :=
  let (prob, s₁) := calcLiqProbRng candle_num position_duration
    position_size_ratio pnl_percent s
  let (x, s₂) := s₁.next
  (if x < prob then true else false, s₂)

/- ### Players, trades and strategies -/

/-- The `Player` class.  `round_liq_attr` models the presence of the
dynamic `_round_liquidations` attribute that `run_trading_simulation`
tests with `hasattr`; the constructor does not set it and no code path in
the source ever sets it either. -/
structure Player where
  type : String
  balance : ℝ
  initial_balance : ℝ
  total_trades : ℕ
  winning_trades : ℕ
  total_fees_paid : ℝ
  liquidations_suffered : ℕ
  round_liq_attr : Bool

/-- `Player.__init__(player_type, initial_balance=1000)`. -/
def Player.make (player_type : String) (initial_balance : ℝ) : Player :=
  ⟨player_type, initial_balance, initial_balance, 0, 0, 0, 0, false⟩

/-- The trade record dict appended by the strategies on a normal exit. -/
structure Trade where
  entry_candle : ℕ
  exit_candle : ℕ
  entry_price : ℝ
  exit_price : ℝ
  gross_pnl : ℝ
  net_pnl : ℝ
  fee : ℝ

/-- Ghost event log for one position: either it reached a normal exit
(with the trade record the source computes) or it was liquidated,
forfeiting the recorded position size.  The source only materialises the
`completed` records; the event list exists so that balance-conservation
can be stated for liquidations too. -/
inductive TradeEv where
  | completed (t : Trade)
  | liquidated (size : ℝ)

/-- The trade records a strategy actually returns: the completed events,
in order (liquidations contribute nothing, matching `trades.append`
being reached only on the non-liquidated path). -/
def completedTrades (evs : List TradeEv) : List Trade :=
  evs.filterMap fun e => match e with
    | .completed t => some t
    | .liquidated _ => none

/-- Balance effect of one position: `net_pnl` on a normal exit, minus
the position size on a liquidation. -/
def TradeEv.delta : TradeEv → ℝ
  | .completed t => t.net_pnl
  | .liquidated size => -size

/-- Total balance effect of an event list. -/
def evSum (evs : List TradeEv) : ℝ := (evs.map TradeEv.delta).sum

/-- `random.choices([0,1,2,3,4,5], weights=[10,30,25,20,10,5])[0]`, by
cumulative-weight inversion of one uniform draw. -/
def numTradesChoice (s : Rng) : ℕ × Rng :=
  let (x, s') := s.next
  (if x < 0.1 then 0 else if x < 0.4 then 1 else if x < 0.65 then 2
    else if x < 0.85 then 3 else if x < 0.95 then 4 else 5, s')

/-- The per-candle liquidation scan shared verbatim by all four
strategies (`for candle in range(...): ... if simulator.check_liquidation(...)`):
starting at candle `c` with `fuel` candles left to scan, returns whether
the position was liquidated, together with the advanced stream.  `ratio`
is the `position_size_ratio` argument the strategy passes to
`check_liquidation`; `balance` is the player's balance at entry (it is
not mutated during the scan). -/
def holdScan (data : List Candle) (entry_candle : ℕ)
    (entry_price position_size balance ratio : ℝ) :
    ℕ → ℕ → Rng → Bool × Rng
  | _, 0, s => (false, s)
  | c, fuel + 1, s =>
    let current_price := closeAt data c
    let pnl := (current_price - entry_price) * (position_size / entry_price)
    let pnl_percent := pnl / balance
    let r := check_liquidation c (some ((c - entry_candle : ℕ) : ℝ)) (some ratio)
      (some pnl_percent) s
    if r.1 then (true, r.2)
    else holdScan data entry_candle entry_price position_size balance ratio
      (c + 1) fuel r.2

/-- One iteration of `random_trader`'s trade loop: random entry candle in
`[GRACE_PERIOD_CANDLES, len - 50]`, random hold in `[10, 100]`, the
liquidation scan, and either the liquidation debit or the normal exit
bookkeeping. -/
def tradeStep (data : List Candle) (p : Player) (s : Rng) :
    TradeEv × Player × Rng :=
  let r₁ := randIntNat s GRACE_PERIOD_CANDLES (data.length - 50)
  let entry_candle := r₁.1
  let r₂ := randIntNat r₁.2 10 100
  let hold_duration := r₂.1
  let exit_candle := min (entry_candle + hold_duration) (data.length - 1)
  let entry_price := closeAt data entry_candle
  let position_size := p.balance * positionSizeRatio
  let h := holdScan data entry_candle entry_price position_size p.balance
    positionSizeRatio entry_candle (exit_candle + 1 - entry_candle) r₂.2
  if h.1 then
    (.liquidated position_size,
      { p with balance := p.balance - position_size,
               liquidations_suffered := p.liquidations_suffered + 1 }, h.2)
  else
    let exit_price := closeAt data exit_candle
    let gross_pnl := (exit_price - entry_price) * (position_size / entry_price)
    let trading_fee := position_size * TRADING_FEE_RATE
    let net_pnl := gross_pnl - trading_fee
    (.completed ⟨entry_candle, exit_candle, entry_price, exit_price,
        gross_pnl, net_pnl, trading_fee⟩,
      { p with balance := p.balance + net_pnl,
               total_fees_paid := p.total_fees_paid + trading_fee,
               total_trades := p.total_trades + 1,
               winning_trades := p.winning_trades + (if 0 < net_pnl then 1 else 0) },
      h.2)

/-- `random_trader`'s `for _ in range(num_trades)` loop with its
`if player.balance <= 0: break` guard. -/
def randomTraderLoop (data : List Candle) :
    ℕ → Player → Rng → List TradeEv × Player × Rng
  | 0, p, s => ([], p, s)
  | n + 1, p, s =>
    if p.balance ≤ 0 then ([], p, s)
    else
      let r := tradeStep data p s
      let rest := randomTraderLoop data n r.2.1 r.2.2
      (r.1 :: rest.1, rest.2.1, rest.2.2)

/-- `PlayerStrategy.random_trader`, instrumented with the ghost event
log. -/
def randomTraderCore (p : Player) (data : List Candle) (s : Rng) :
    List TradeEv × Player × Rng :=
  let r := numTradesChoice s
  randomTraderLoop data r.1 p r.2

/-- `PlayerStrategy.random_trader`: returns the completed trade records
(liquidated positions contribute none). -/
def random_trader (p : Player) (data : List Candle) (s : Rng) :
    List Trade × Player × Rng :=
  let r := randomTraderCore p data s
  (completedTrades r.1, r.2.1, r.2.2)

/-- `PlayerStrategy.buy_and_hold`, instrumented with the ghost event
log: enter at `GRACE_PERIOD_CANDLES + 10`, hold to the end of the round
(`for candle in range(entry_candle, len(price_data))`) or liquidation;
exit at `price_data[-1]`. -/
def buyAndHoldCore (p : Player) (data : List Candle) (s : Rng) :
    List TradeEv × Player × Rng :=
  if p.balance ≤ 0 then ([], p, s)
  else
    let entry_candle := GRACE_PERIOD_CANDLES + 10
    let entry_price := closeAt data entry_candle
    let position_size := p.balance * positionSizeRatio
    let h := holdScan data entry_candle entry_price position_size p.balance
      positionSizeRatio entry_candle (data.length - entry_candle) s
    if h.1 then
      ([.liquidated position_size],
        { p with balance := p.balance - position_size,
                 liquidations_suffered := p.liquidations_suffered + 1 }, h.2)
    else
      let exit_price := closeAt data (data.length - 1)
      let gross_pnl := (exit_price - entry_price) * (position_size / entry_price)
      let trading_fee := position_size * TRADING_FEE_RATE
      let net_pnl := gross_pnl - trading_fee
      ([.completed ⟨entry_candle, data.length - 1, entry_price, exit_price,
          gross_pnl, net_pnl, trading_fee⟩],
        { p with balance := p.balance + net_pnl,
                 total_fees_paid := p.total_fees_paid + trading_fee,
                 total_trades := p.total_trades + 1,
                 winning_trades := p.winning_trades + (if 0 < net_pnl then 1 else 0) },
        h.2)

/-- `PlayerStrategy.buy_and_hold`. -/
def buy_and_hold (p : Player) (data : List Candle) (s : Rng) :
    List Trade × Player × Rng :=
  let r := buyAndHoldCore p data s
  (completedTrades r.1, r.2.1, r.2.2)

/-- One iteration of `scalper`'s trade loop: entry in
`[GRACE_PERIOD_CANDLES, len - 20]`, hold in `[5, 30]`, half-sized
position (`POSITION_SIZE_RATIO * 0.5` both for the position size and the
ratio passed to `check_liquidation`).  On a normal exit the source
updates the player's balance and counters but — unlike the other
strategies — never appends the computed trade record to `trades`. -/
def scalperStep (data : List Candle) (p : Player) (s : Rng) :
    TradeEv × Player × Rng :=
  let r₁ := randIntNat s GRACE_PERIOD_CANDLES (data.length - 20)
  let entry_candle := r₁.1
  let r₂ := randIntNat r₁.2 5 30
  let hold_duration := r₂.1
  let exit_candle := min (entry_candle + hold_duration) (data.length - 1)
  let entry_price := closeAt data entry_candle
  let position_size := p.balance * (positionSizeRatio * 0.5)
  let h := holdScan data entry_candle entry_price position_size p.balance
    (positionSizeRatio * 0.5) entry_candle (exit_candle + 1 - entry_candle) r₂.2
  if h.1 then
    (.liquidated position_size,
      { p with balance := p.balance - position_size,
               liquidations_suffered := p.liquidations_suffered + 1 }, h.2)
  else
    let exit_price := closeAt data exit_candle
    let gross_pnl := (exit_price - entry_price) * (position_size / entry_price)
    let trading_fee := position_size * TRADING_FEE_RATE
    let net_pnl := gross_pnl - trading_fee
    (.completed ⟨entry_candle, exit_candle, entry_price, exit_price,
        gross_pnl, net_pnl, trading_fee⟩,
      { p with balance := p.balance + net_pnl,
               total_fees_paid := p.total_fees_paid + trading_fee,
               total_trades := p.total_trades + 1,
               winning_trades := p.winning_trades + (if 0 < net_pnl then 1 else 0) },
      h.2)

/-- `scalper`'s `for _ in range(num_trades)` loop with its balance
guard. -/
def scalperLoop (data : List Candle) :
    ℕ → Player → Rng → List TradeEv × Player × Rng
  | 0, p, s => ([], p, s)
  | n + 1, p, s =>
    if p.balance ≤ 0 then ([], p, s)
    else
      let r := scalperStep data p s
      let rest := scalperLoop data n r.2.1 r.2.2
      (r.1 :: rest.1, rest.2.1, rest.2.2)

/-- `PlayerStrategy.scalper`, instrumented: `num_trades = randint(5, 15)`
then the trade loop. -/
def scalperCore (p : Player) (data : List Candle) (s : Rng) :
    List TradeEv × Player × Rng :=
  let r := randIntNat s 5 15
  scalperLoop data r.1 p r.2

/-- `PlayerStrategy.scalper`.  The returned record list is always empty:
the source initialises `trades = []` and no statement ever appends to
it, even though normal exits update the player's balance and counters. -/
def scalper (p : Player) (data : List Candle) (s : Rng) :
    List Trade × Player × Rng :=
  let r := scalperCore p data s
  ([], r.2.1, r.2.2)

/-- `max(price_data[j]['high'] for j in range(start, start + n))` for
`n ≥ 1` (the source always uses `n = 20`). -/
def maxHighFrom (data : List Candle) : ℕ → ℕ → ℝ
  | _, 0 => 0
  | j, 1 => (data.getD j dummyCandle).high_price
  | j, n + 2 => max ((data.getD j dummyCandle).high_price)
      (maxHighFrom data (j + 1) (n + 1))

/-- The dip test of `dip_buyer` at candle `i`: the close has dropped
more than 5% from the maximum high of the 20 preceding candles. -/
def dipAt (data : List Candle) (i : ℕ) : Bool :=
  let recent_high := maxHighFrom data (i - 20) 20
  let current_price := closeAt data i
  let drop_percent := (recent_high - current_price) / recent_high
  if 0.05 < drop_percent then true else false

/-- First qualifying dip at or after candle `i`, scanning `fuel` candles
(`entry_opportunities[0]` of the source's scan). -/
def findDip (data : List Candle) : ℕ → ℕ → Option ℕ
  | _, 0 => none
  | i, fuel + 1 => if dipAt data i then some i else findDip data (i + 1) fuel

/-- `PlayerStrategy.dip_buyer`, instrumented: scan
`range(GRACE_PERIOD_CANDLES + 20, len(price_data) - 30)` for the first
dip, then enter there with a random hold in `[30, 80]`. -/
def dipBuyerCore (p : Player) (data : List Candle) (s : Rng) :
    List TradeEv × Player × Rng :=
  if p.balance ≤ 0 then ([], p, s)
  else
    match findDip data (GRACE_PERIOD_CANDLES + 20)
        (data.length - 30 - (GRACE_PERIOD_CANDLES + 20)) with
    | none => ([], p, s)
    | some entry_candle =>
      let entry_price := closeAt data entry_candle
      let position_size := p.balance * positionSizeRatio
      let r₁ := randIntNat s 30 80
      let hold_duration := r₁.1
      let exit_candle := min (entry_candle + hold_duration) (data.length - 1)
      let h := holdScan data entry_candle entry_price position_size p.balance
        positionSizeRatio entry_candle (exit_candle + 1 - entry_candle) r₁.2
      if h.1 then
        ([.liquidated position_size],
          { p with balance := p.balance - position_size,
                   liquidations_suffered := p.liquidations_suffered + 1 }, h.2)
      else
        let exit_price := closeAt data exit_candle
        let gross_pnl := (exit_price - entry_price) * (position_size / entry_price)
        let trading_fee := position_size * TRADING_FEE_RATE
        let net_pnl := gross_pnl - trading_fee
        ([.completed ⟨entry_candle, exit_candle, entry_price, exit_price,
            gross_pnl, net_pnl, trading_fee⟩],
          { p with balance := p.balance + net_pnl,
                   total_fees_paid := p.total_fees_paid + trading_fee,
                   total_trades := p.total_trades + 1,
                   winning_trades := p.winning_trades + (if 0 < net_pnl then 1 else 0) },
          h.2)

/-- `PlayerStrategy.dip_buyer`. -/
def dip_buyer (p : Player) (data : List Candle) (s : Rng) :
    List Trade × Player × Rng :=
  let r := dipBuyerCore p data s
  (completedTrades r.1, r.2.1, r.2.2)

/- ### The round simulator -/

/-- The `player_types` strategy lookup table of `run_trading_simulation`,
instrumented variant. -/
def strategyCoreFor (tag : String) :
    Player → List Candle → Rng → List TradeEv × Player × Rng :=
  if tag = "random" then randomTraderCore
  else if tag = "hodl" then buyAndHoldCore
  else if tag = "scalper" then scalperCore
  else dipBuyerCore

/-- The trade records the strategy with tag `tag` returns for the event
list `evs` (the scalper returns none). -/
def recordsFor (tag : String) (evs : List TradeEv) : List Trade :=
  if tag = "scalper" then [] else completedTrades evs

/-- The `player_types` strategy lookup table of `run_trading_simulation`. -/
def strategyFor (tag : String) :
    Player → List Candle → Rng → List Trade × Player × Rng :=
  if tag = "random" then random_trader
  else if tag = "hodl" then buy_and_hold
  else if tag = "scalper" then scalper
  else dip_buyer

/-- The per-player loop of one round of `run_trading_simulation`:
players with non-positive balance are skipped (`continue`), the others
run their strategy; `round_fees` accumulates the fees of the returned
trade records. -/
def roundLoop : List Player → List Candle → Rng → List Player × ℝ × Rng
  | [], _, s => ([], 0, s)
  | p :: ps, data, s =>
    if p.balance ≤ 0 then
      let rest := roundLoop ps data s
      (p :: rest.1, rest.2.1, rest.2.2)
    else
      let r := strategyFor p.type p data s
      let rest := roundLoop ps data r.2.2
      (r.2.1 :: rest.1, ((r.1.map Trade.fee).sum + rest.2.1), rest.2.2)

/-- One round of `run_trading_simulation`: the player loop followed by
`round_liquidations = sum(1 for p in all_players if hasattr(p, '_round_liquidations'))`.
Returns (players, round_fees, round_liquidations, stream). -/
def playRound (players : List Player) (data : List Candle) (s : Rng) :
    List Player × ℝ × ℕ × Rng :=
  let r := roundLoop players data s
  (r.1, r.2.1, (r.1.countP fun p => p.round_liq_attr), r.2.2)

/-- Instrumented per-player round loop: pairs every (updated) player with
the ghost event log of its strategy execution this round. -/
def roundLoopEv : List Player → List Candle → Rng →
    List (Player × List TradeEv) × ℝ × Rng
  | [], _, s => ([], 0, s)
  | p :: ps, data, s =>
    if p.balance ≤ 0 then
      let rest := roundLoopEv ps data s
      ((p, []) :: rest.1, rest.2.1, rest.2.2)
    else
      let r := strategyCoreFor p.type p data s
      let rest := roundLoopEv ps data r.2.2
      ((r.2.1, r.1) :: rest.1,
        (((recordsFor p.type r.1).map Trade.fee).sum + rest.2.1), rest.2.2)

/-- The round iteration of `run_trading_simulation`
(`for round_num in range(num_rounds)`) as it acts on the player
population: each round runs `playRound` on that round's candle sequence
and threads the updated players and the global draw stream into the next
round.  The per-round statistics (`house_profits`, `round_data`, the
liquidation count) are recorded but never feed back into player state,
so they do not appear in the carried state.  In the source each round's
candle sequence is produced by `generate_with_seed (some round_num)`;
here the sequence of rounds is an argument, so the conservation theorem
holds for every sequence of rounds, the generated ones included. -/
def simLoop : List (List Candle) → List Player → Rng → List Player × Rng
  | [], players, s => (players, s)
  | data :: rest, players, s =>
    let r := playRound players data s
    simLoop rest r.1 r.2.2.2

/-- Ghost: each player's accumulated balance delta over a whole run, the
sum over the run's rounds of `evSum` of that player's event log for the
round (positionally aligned with the player list): the sum of the net
PnLs of the player's normal exits minus the sum of its liquidated
position sizes, over the whole run. -/
def simLoopEvDeltas : List (List Candle) → List Player → Rng → List ℝ
  | [], players, _ => players.map fun _ => 0
  | data :: rest, players, s =>
    let r := roundLoopEv players data s
    List.zipWith (fun pr d => evSum pr.2 + d) r.1
      (simLoopEvDeltas rest (r.1.map Prod.fst) r.2.2)

/-- Run-level conservation, per player: the player after the run (paired
with its accumulated run delta) has the balance it started the run with
plus the delta, and its `initial_balance` field untouched. -/
def ConservedStep (q : Player) (pd : Player × ℝ) : Prop :=
  pd.1.balance = q.balance + pd.2 ∧ pd.1.initial_balance = q.initial_balance

/-- Round-level conservation, per player: the player after the round has
its entry balance plus `evSum` of the round's events, and its
`initial_balance` field untouched. -/
def RoundConserved (q : Player) (pr : Player × List TradeEv) : Prop :=
  pr.1.balance = q.balance + evSum pr.2 ∧ pr.1.initial_balance = q.initial_balance

/-- The per-candle OHLC well-formedness property claimed by the spec. -/
def CandleOK (c : Candle) : Prop :=
  c.low_price ≤ min c.open_price c.close_price ∧
  max c.open_price c.close_price ≤ c.high_price ∧
  0 < c.open_price ∧ 0 < c.high_price ∧ 0 < c.low_price ∧ 0 < c.close_price

/-- The bookkeeping the claim C4 demands of a normal exit with position
size `size`: record consistency (`net = gross - fee`, `fee = size × rate`)
and the exact player mutations. -/
def NormalExitOK (p p' : Player) (t : Trade) (size : ℝ) : Prop :=
  t.net_pnl = t.gross_pnl - t.fee ∧
  t.fee = size * TRADING_FEE_RATE ∧
  p'.balance = p.balance + t.net_pnl ∧
  p'.total_fees_paid = p.total_fees_paid + t.fee ∧
  p'.total_trades = p.total_trades + 1 ∧
  (0 < t.net_pnl → p'.winning_trades = p.winning_trades + 1) ∧
  (t.net_pnl ≤ 0 → p'.winning_trades = p.winning_trades)

/-- The exact effect claim C5 demands of a liquidation of size `size`:
the balance debited by exactly the position size, the liquidation
counter incremented, every other field untouched. -/
def LiquidationOK (p p' : Player) (size : ℝ) : Prop :=
  p'.balance = p.balance - size ∧
  p'.liquidations_suffered = p.liquidations_suffered + 1 ∧
  p'.total_trades = p.total_trades ∧
  p'.winning_trades = p.winning_trades ∧
  p'.total_fees_paid = p.total_fees_paid ∧
  p'.type = p.type ∧
  p'.initial_balance = p.initial_balance


/- ### Concrete inputs for the evaluation theorems -/

/-- Candle with all four prices equal to 1, used by the concrete runs. -/
def unitCandle : Candle := ⟨0, 1, 1, 1, 1⟩

/-- 161 unit candles (buy-and-hold run: a one-candle hold window). -/
def data161 : List Candle := List.replicate 161 unitCandle

/-- 170 unit candles (scalper run: minimal entry/hold windows). -/
def data170 : List Candle := List.replicate 170 unitCandle

/-- 200 unit candles (random-trader runs: minimal `randint` windows). -/
def data200 : List Candle := List.replicate 200 unitCandle

/-- The all-zero draw stream positioned at draw `k`. -/
def zeroRng (k : ℕ) : Rng := ⟨fun _ => 0, k⟩

/-- The constant-1/2 draw stream positioned at draw `k`. -/
def halfRng (k : ℕ) : Rng := ⟨fun _ => 1/2, k⟩

/-- The constant-1/100 draw stream positioned at draw `k`. -/
def centRng (k : ℕ) : Rng := ⟨fun _ => 1/100, k⟩

/-- Draw stream whose first draw is 1/4 (choosing one trade for the
random trader) and whose later draws are all 0 (minimal entry and hold,
then an immediately successful liquidation draw once the probability is
positive). -/
def quarterThenZeroRng (k : ℕ) : Rng := ⟨fun n => if n = 0 then 1/4 else 0, k⟩

/- ### Basic lemmas about the risk model -/

lemma baseChance_nonneg (candle_num : ℕ) : 0 ≤ baseChance candle_num := by
  unfold baseChance
  split
  · apply mul_nonneg (by norm_num)
    exact div_nonneg (Nat.cast_nonneg _) (Nat.cast_nonneg _)
  · norm_num

lemma timeRisk_nonneg (pd : Option ℝ) : 0 ≤ timeRisk pd := by
  rcases pd with _ | d
  · simp [timeRisk]
  · unfold timeRisk
    simp only
    split
    · rename_i hd
      apply le_min
      · norm_num
      · have hb : (0:ℝ) ≤ (d - 60) / 200 := by linarith
        have h18 := Real.rpow_nonneg hb (1.8 : ℝ)
        nlinarith
    · exact le_rfl

lemma sizeRisk_nonneg (pd psr : Option ℝ) : 0 ≤ sizeRisk pd psr := by
  rcases pd with _ | d <;> rcases psr with _ | r <;> simp [sizeRisk]
  split
  · rename_i hr
    apply le_min
    · norm_num
    · nlinarith
  · exact le_rfl

lemma greedRisk_nonneg (pd pp : Option ℝ) : 0 ≤ greedRisk pd pp := by
  rcases pd with _ | d <;> rcases pp with _ | p <;> simp [greedRisk]
  split
  · rename_i hp
    apply le_min
    · norm_num
    · nlinarith
  · exact le_rfl

lemma composedRisk_nonneg (candle_num : ℕ) (pd psr pp : Option ℝ) :
    0 ≤ composedRisk candle_num pd psr pp := by
  unfold composedRisk
  have h1 := baseChance_nonneg candle_num
  have h2 := timeRisk_nonneg pd
  have h3 := sizeRisk_nonneg pd psr
  have h4 := greedRisk_nonneg pd pp
  linarith

lemma timeRisk_mono {d₁ d₂ : ℝ} (h : d₁ ≤ d₂) :
    timeRisk (some d₁) ≤ timeRisk (some d₂) := by
  by_cases h1 : 60 < d₁
  · have h2 : 60 < d₂ := lt_of_lt_of_le h1 h
    simp only [timeRisk, if_pos h1, if_pos h2]
    apply min_le_min le_rfl
    apply mul_le_mul_of_nonneg_right _ (by norm_num)
    apply Real.rpow_le_rpow (by linarith) (by linarith) (by norm_num)
  · calc timeRisk (some d₁) = 0 := by simp only [timeRisk, if_neg h1]
    _ ≤ timeRisk (some d₂) := timeRisk_nonneg _

lemma sizeRisk_some_congr (d d' : ℝ) (psr : Option ℝ) :
    sizeRisk (some d) psr = sizeRisk (some d') psr := by
  rcases psr with _ | r <;> simp [sizeRisk]

lemma greedRisk_some_congr (d d' : ℝ) (pp : Option ℝ) :
    greedRisk (some d) pp = greedRisk (some d') pp := by
  rcases pp with _ | p <;> simp [greedRisk]

/-- **C1.**  For every candle index, hold duration, position size ratio
and pnl percent, and every multiplier value in `[0.7, 1.5]`, the
probability returned by `calculate_liquidation_probability` lies in
`[0, 0.01]`; below the grace period it is exactly `0` regardless of the
other arguments. -/
theorem liq_prob_bounds (candle_num : ℕ) (d r q m : ℝ)
    (hm₀ : 0.7 ≤ m) (hm₁ : m ≤ 1.5) :
    (0 ≤ calculate_liquidation_probability candle_num (some d) (some r) (some q) m ∧
      calculate_liquidation_probability candle_num (some d) (some r) (some q) m ≤ 0.01) ∧
    (candle_num < GRACE_PERIOD_CANDLES →
      calculate_liquidation_probability candle_num (some d) (some r) (some q) m = 0) := by
  unfold calculate_liquidation_probability
  by_cases h : candle_num < GRACE_PERIOD_CANDLES
  · simp only [if_pos h]
    exact ⟨⟨le_rfl, by norm_num⟩, fun _ => trivial⟩
  · have h' : GRACE_PERIOD_CANDLES ≤ candle_num := le_of_not_lt h
    simp only [if_neg h, if_pos h']
    refine ⟨⟨le_min (by norm_num) ?_, min_le_left _ _⟩, fun hc => absurd hc h⟩
    have hcr := composedRisk_nonneg candle_num (some d) (some r) (some q)
    have hm : (0:ℝ) ≤ m := by linarith
    exact mul_nonneg hcr hm

/-- Witness for C1 at `candle_num = 100`, `d = r = q = 0`, `m = 1`. -/
theorem liq_prob_bounds_witness :
    ((0.7:ℝ) ≤ 1 ∧ (1:ℝ) ≤ 1.5) ∧
    ((0 ≤ calculate_liquidation_probability 100 (some 0) (some 0) (some 0) 1 ∧
      calculate_liquidation_probability 100 (some 0) (some 0) (some 0) 1 ≤ 0.01) ∧
    (100 < GRACE_PERIOD_CANDLES →
      calculate_liquidation_probability 100 (some 0) (some 0) (some 0) 1 = 0)) :=
  ⟨⟨by norm_num, by norm_num⟩, liq_prob_bounds 100 0 0 0 1 (by norm_num) (by norm_num)⟩

/-- **C8.**  Holding the candle index (at or above the grace period), the
position size ratio and the pnl percent fixed, the composed pre-multiplier
risk is monotonically non-decreasing in the hold duration. -/
theorem composedRisk_mono_duration (candle_num : ℕ) (d₁ d₂ r q : ℝ)
    (hc : GRACE_PERIOD_CANDLES ≤ candle_num) (h : d₁ ≤ d₂) :
    composedRisk candle_num (some d₁) (some r) (some q) ≤
      composedRisk candle_num (some d₂) (some r) (some q) := by
  unfold composedRisk
  have ht := timeRisk_mono h
  have hs := sizeRisk_some_congr d₁ d₂ (some r)
  have hg := greedRisk_some_congr d₁ d₂ (some q)
  rw [hs, hg]
  linarith

/-- Witness for C8 at `candle_num = 200`, `d₁ = 50`, `d₂ = 90`. -/
theorem composedRisk_mono_duration_witness :
    (GRACE_PERIOD_CANDLES ≤ 200 ∧ (50:ℝ) ≤ 90) ∧
    composedRisk 200 (some 50) (some 0.2) (some 0) ≤
      composedRisk 200 (some 90) (some 0.2) (some 0) :=
  ⟨⟨by norm_num [GRACE_PERIOD_CANDLES], by norm_num⟩,
    composedRisk_mono_duration 200 50 90 0.2 0
      (by norm_num [GRACE_PERIOD_CANDLES]) (by norm_num)⟩

/- ### Candle generator: invariants (C6) and seeding (C7) -/

lemma mkCandle_open_price (u : ℕ → ℝ) (p : ℝ) (i : ℕ) :
    (mkCandle u p i).open_price = p := rfl

lemma mkCandle_ok (u : ℕ → ℝ) (p : ℝ) (i : ℕ)
    (hu : ∀ n, 0 ≤ u n ∧ u n < 1) (hp : 0.01 ≤ p) :
    CandleOK (mkCandle u p i) ∧ 0.01 ≤ (mkCandle u p i).close_price := by
  have h5 := (hu (7 + 7 * i + 5)).1
  have h6 := (hu (7 + 7 * i + 6)).1
  have h4 := (hu (7 + 7 * i + 4)).1
  unfold CandleOK mkCandle
  simp only
  set m := p * (0.02 + u (7 + 7 * i) * 0.06) *
    copysign1 ((if u (7 + 7 * i + 1) < 1/2 then (-1:ℝ) else 1) +
      (Real.sin ((i * 2 * Real.pi / (100 + u 1 * 100)) + u 4 * Real.pi * 2) * 0.15 +
        Real.sin ((i * 2 * Real.pi / (30 + u 2 * 20)) + u 5 * Real.pi * 2) * 0.08 +
        Real.sin ((i * 2 * Real.pi / (8 + u 3 * 8)) + u 6 * Real.pi * 2) * 0.04) +
      (u (7 + 7 * i + 2) - 0.5) * 2 * 0.3) with hm
  set cl := max 0.01 (p + m * (0.5 + u (7 + 7 * i + 3) * 0.5)) with hcl
  have hcl001 : (0.01 : ℝ) ≤ cl := le_max_left _ _
  have hwm : (0:ℝ) ≤ 0.3 + u (7 + 7 * i + 4) * 0.4 := by nlinarith
  have hw5 : (0:ℝ) ≤ |m| * (0.3 + u (7 + 7 * i + 4) * 0.4) * u (7 + 7 * i + 5) := by
    apply mul_nonneg (mul_nonneg (abs_nonneg _) hwm) h5
  have hw6 : (0:ℝ) ≤ |m| * (0.3 + u (7 + 7 * i + 4) * 0.4) * u (7 + 7 * i + 6) := by
    apply mul_nonneg (mul_nonneg (abs_nonneg _) hwm) h6
  refine ⟨⟨?_, ?_, ?_, ?_, ?_, ?_⟩, hcl001⟩
  · exact max_le (le_min hp hcl001) (by linarith [sub_le_self (min p cl) hw6])
  · linarith [le_refl (max p cl)]
  · linarith
  · have : p ≤ max p cl := le_max_left _ _
    linarith
  · have : (0.01:ℝ) ≤ max 0.01 (min p cl - |m| * (0.3 + u (7 + 7 * i + 4) * 0.4) * u (7 + 7 * i + 6)) :=
      le_max_left _ _
    linarith
  · linarith

lemma genLoop_ok (u : ℕ → ℝ) (hu : ∀ n, 0 ≤ u n ∧ u n < 1) :
    ∀ (n : ℕ) (p : ℝ) (i : ℕ), 0.01 ≤ p → ∀ c ∈ genLoop u n p i, CandleOK c := by
  intro n
  induction n with
  | zero => intro p i _ c hc; simp [genLoop] at hc
  | succ n ih =>
    intro p i hp c hc
    rw [genLoop] at hc
    rcases List.mem_cons.mp hc with h | h
    · exact h ▸ (mkCandle_ok u p i hu hp).1
    · exact ih _ _ (mkCandle_ok u p i hu hp).2 c h

lemma genLoop_chain (u : ℕ → ℝ) :
    ∀ (n : ℕ) (p : ℝ) (i : ℕ),
      List.Chain' (fun a b => b.open_price = a.close_price) (genLoop u n p i) := by
  intro n
  induction n with
  | zero => intro p i; simp [genLoop]
  | succ n ih =>
    intro p i
    rw [genLoop]
    refine List.chain'_cons'.mpr ⟨?_, ih _ _⟩
    intro b hb
    cases n with
    | zero => simp [genLoop] at hb
    | succ n =>
      rw [genLoop] at hb
      simp only [List.head?_cons, Option.mem_def, Option.some_inj] at hb
      rw [← hb, mkCandle_open_price]

/-- **C6.**  Every candle produced by `generate_realistic_price_data`
satisfies `low ≤ min(open, close) ≤ max(open, close) ≤ high` with all
four prices strictly positive, and the open of each candle equals the
close of its predecessor. -/
theorem candle_sequence_invariants (u : ℕ → ℝ) (hu : ∀ n, 0 ≤ u n ∧ u n < 1) :
    (∀ c ∈ generate_realistic_price_data u, CandleOK c) ∧
    List.Chain' (fun a b => b.open_price = a.close_price)
      (generate_realistic_price_data u) := by
  constructor
  · intro c hc
    refine genLoop_ok u hu _ _ _ ?_ c hc
    have := (hu 0).1
    nlinarith
  · exact genLoop_chain u _ _ _

/-- Witness for C6 on the all-zero draw stream. -/
theorem candle_sequence_invariants_witness :
    (∀ n : ℕ, 0 ≤ (fun _ : ℕ => (0:ℝ)) n ∧ (fun _ : ℕ => (0:ℝ)) n < 1) ∧
    ((∀ c ∈ generate_realistic_price_data (fun _ : ℕ => (0:ℝ)), CandleOK c) ∧
      List.Chain' (fun a b => b.open_price = a.close_price)
        (generate_realistic_price_data (fun _ : ℕ => (0:ℝ)))) :=
  ⟨fun _ => ⟨le_rfl, by norm_num⟩,
    candle_sequence_invariants _ (fun _ => ⟨le_rfl, by norm_num⟩)⟩

/-- **C7** is refuted: with `seed = 0` the source's `if seed:` guard is
falsy, so the generator is not reseeded and its output depends on the
pre-existing state of the global pseudo-random stream.  Two invocations
with the same seed `0` but different prior streams produce different
sequences (already the first candle's open differs: 10 vs 12.5). -/
theorem seed_zero_depends_on_prior_stream :
    (generate_with_seed (some 0) (fun _ => (0:ℝ))).head?.map Candle.open_price =
      some 10 ∧
    (generate_with_seed (some 0) (fun _ => (1:ℝ)/2)).head?.map Candle.open_price =
      some (25/2) := by
  have e1 : (generate_with_seed (some 0) (fun _ => (0:ℝ))).head? =
      some (mkCandle (fun _ => (0:ℝ)) (10 + (0:ℝ) * 5) 0) := rfl
  have e2 : (generate_with_seed (some 0) (fun _ => (1:ℝ)/2)).head? =
      some (mkCandle (fun _ => (1:ℝ)/2) (10 + ((1:ℝ)/2) * 5) 0) := rfl
  rw [e1, e2]
  simp only [Option.map_some', mkCandle_open_price, Option.some_inj]
  constructor <;> norm_num

/- ### C4: bookkeeping of a completed normal trade -/

lemma tradeStep_completed (data : List Candle) (p : Player) (s : Rng)
    (t : Trade) (p' : Player) (s' : Rng)
    (h : tradeStep data p s = (.completed t, p', s')) :
    NormalExitOK p p' t (p.balance * positionSizeRatio) := by
  simp only [tradeStep] at h
  split at h
  · simp at h
  · simp only [Prod.mk.injEq, TradeEv.completed.injEq] at h
    obtain ⟨h1, h2, -⟩ := h
    subst h1
    subst h2
    refine ⟨by simp, by simp, by simp, by simp, by simp, ?_, ?_⟩
    · intro hpos
      simp only
      rw [if_pos ?_]
      · simpa using hpos
    · intro hnp
      simp only
      rw [if_neg ?_]
      · simp
      · simpa using not_lt.mpr hnp

lemma buyAndHoldCore_completed (data : List Candle) (p : Player) (s : Rng)
    (t : Trade) (p' : Player) (s' : Rng)
    (h : buyAndHoldCore p data s = ([.completed t], p', s')) :
    NormalExitOK p p' t (p.balance * positionSizeRatio) := by
  simp only [buyAndHoldCore] at h
  split at h
  · simp at h
  split at h
  · simp at h
  · simp only [Prod.mk.injEq, List.cons.injEq, TradeEv.completed.injEq, and_true] at h
    obtain ⟨h1, h2, -⟩ := h
    subst h1
    subst h2
    refine ⟨by simp, by simp, by simp, by simp, by simp, ?_, ?_⟩
    · intro hpos
      simp only
      rw [if_pos ?_]
      · simpa using hpos
    · intro hnp
      simp only
      rw [if_neg ?_]
      · simp
      · simpa using not_lt.mpr hnp

set_option maxRecDepth 2000 in
lemma dipBuyerCore_completed (data : List Candle) (p : Player) (s : Rng)
    (t : Trade) (p' : Player) (s' : Rng)
    (h : dipBuyerCore p data s = ([.completed t], p', s')) :
    NormalExitOK p p' t (p.balance * positionSizeRatio) := by
  simp only [dipBuyerCore] at h
  split at h
  · simp at h
  split at h
  · simp at h
  split at h
  · simp at h
  · simp only [Prod.mk.injEq, List.cons.injEq, TradeEv.completed.injEq, and_true] at h
    obtain ⟨h1, h2, -⟩ := h
    subst h1
    subst h2
    refine ⟨by simp, by simp, by simp, by simp, by simp, ?_, ?_⟩
    · intro hpos
      simp only
      rw [if_pos ?_]
      · simpa using hpos
    · intro hnp
      simp only
      rw [if_neg ?_]
      · simp
      · simpa using not_lt.mpr hnp

lemma mem_completedTrades (evs : List TradeEv) (t : Trade) :
    t ∈ completedTrades evs ↔ TradeEv.completed t ∈ evs := by
  unfold completedTrades
  rw [List.mem_filterMap]
  constructor
  · rintro ⟨a, ha, hfa⟩
    cases a with
    | completed t' =>
      simp only [Option.some_inj] at hfa
      subst hfa
      exact ha
    | liquidated z => simp at hfa
  · intro h
    exact ⟨.completed t, h, rfl⟩

lemma randomTraderLoop_completed_net (data : List Candle) :
    ∀ (n : ℕ) (p : Player) (s : Rng) (t : Trade),
      TradeEv.completed t ∈ (randomTraderLoop data n p s).1 →
      t.net_pnl = t.gross_pnl - t.fee := by
  intro n
  induction n with
  | zero => intro p s t ht; simp [randomTraderLoop] at ht
  | succ n ih =>
    intro p s t ht
    rw [randomTraderLoop] at ht
    split at ht
    · simp at ht
    · simp only [List.mem_cons] at ht
      rcases ht with ht | ht
      · have hstep : tradeStep data p s =
            (TradeEv.completed t, (tradeStep data p s).2.1, (tradeStep data p s).2.2) := by
          rw [ht]
        exact (tradeStep_completed data p s t _ _ hstep).1
      · exact ih _ _ t ht

/-- **C4.**  Every completed normal trade produced by a strategy records
`net PnL = gross PnL - fee` with `fee = position size × 0.002` and
mutates the player by exactly the net PnL, the fee, one trade, and one
win exactly when the net PnL is positive.  (The scalper produces no
trade records at all — see C2.) -/
theorem normal_trade_accounting :
    (∀ (data : List Candle) (p : Player) (s : Rng) (t : Trade) (p' : Player) (s' : Rng),
      tradeStep data p s = (.completed t, p', s') →
      NormalExitOK p p' t (p.balance * positionSizeRatio)) ∧
    (∀ (data : List Candle) (p : Player) (s : Rng) (t : Trade) (p' : Player) (s' : Rng),
      buyAndHoldCore p data s = ([.completed t], p', s') →
      NormalExitOK p p' t (p.balance * positionSizeRatio)) ∧
    (∀ (data : List Candle) (p : Player) (s : Rng) (t : Trade) (p' : Player) (s' : Rng),
      dipBuyerCore p data s = ([.completed t], p', s') →
      NormalExitOK p p' t (p.balance * positionSizeRatio)) ∧
    (∀ (data : List Candle) (p : Player) (s : Rng),
      ∀ t ∈ (random_trader p data s).1, t.net_pnl = t.gross_pnl - t.fee) :=
  ⟨tradeStep_completed, buyAndHoldCore_completed, dipBuyerCore_completed,
    fun data p s t ht =>
      randomTraderLoop_completed_net data _ _ _ t
        ((mem_completedTrades _ t).mp ht)⟩

/- ### C5: frame of a liquidation -/

lemma tradeStep_liquidated (data : List Candle) (p : Player) (s : Rng)
    (z : ℝ) (p' : Player) (s' : Rng)
    (h : tradeStep data p s = (.liquidated z, p', s')) :
    z = p.balance * positionSizeRatio ∧ LiquidationOK p p' z := by
  simp only [tradeStep] at h
  split at h
  · simp only [Prod.mk.injEq, TradeEv.liquidated.injEq] at h
    obtain ⟨h1, h2, -⟩ := h
    subst h1
    subst h2
    exact ⟨rfl, by simp [LiquidationOK]⟩
  · simp at h

lemma scalperStep_liquidated (data : List Candle) (p : Player) (s : Rng)
    (z : ℝ) (p' : Player) (s' : Rng)
    (h : scalperStep data p s = (.liquidated z, p', s')) :
    z = p.balance * (positionSizeRatio * 0.5) ∧ LiquidationOK p p' z := by
  simp only [scalperStep] at h
  split at h
  · simp only [Prod.mk.injEq, TradeEv.liquidated.injEq] at h
    obtain ⟨h1, h2, -⟩ := h
    subst h1
    subst h2
    exact ⟨rfl, by simp [LiquidationOK]⟩
  · simp at h

lemma buyAndHoldCore_liquidated (data : List Candle) (p : Player) (s : Rng)
    (z : ℝ) (p' : Player) (s' : Rng)
    (h : buyAndHoldCore p data s = ([.liquidated z], p', s')) :
    z = p.balance * positionSizeRatio ∧ LiquidationOK p p' z := by
  simp only [buyAndHoldCore] at h
  split at h
  · simp at h
  split at h
  · simp only [Prod.mk.injEq, List.cons.injEq, TradeEv.liquidated.injEq, and_true] at h
    obtain ⟨h1, h2, -⟩ := h
    subst h1
    subst h2
    exact ⟨rfl, by simp [LiquidationOK]⟩
  · simp at h

set_option maxRecDepth 2000 in
lemma dipBuyerCore_liquidated (data : List Candle) (p : Player) (s : Rng)
    (z : ℝ) (p' : Player) (s' : Rng)
    (h : dipBuyerCore p data s = ([.liquidated z], p', s')) :
    z = p.balance * positionSizeRatio ∧ LiquidationOK p p' z := by
  simp only [dipBuyerCore] at h
  split at h
  · simp at h
  split at h
  · simp at h
  split at h
  · simp only [Prod.mk.injEq, List.cons.injEq, TradeEv.liquidated.injEq, and_true] at h
    obtain ⟨h1, h2, -⟩ := h
    subst h1
    subst h2
    exact ⟨rfl, by simp [LiquidationOK]⟩
  · simp at h

/-- **C5.**  A liquidated position debits the player's balance by exactly
the position size (balance at entry × the strategy's size ratio),
increments the liquidation counter, charges no fee, leaves every other
player field unchanged, and produces no trade record. -/
theorem liquidation_frame :
    (∀ (data : List Candle) (p : Player) (s : Rng) (z : ℝ) (p' : Player) (s' : Rng),
      tradeStep data p s = (.liquidated z, p', s') →
      z = p.balance * positionSizeRatio ∧ LiquidationOK p p' z ∧
        completedTrades [.liquidated z] = []) ∧
    (∀ (data : List Candle) (p : Player) (s : Rng) (z : ℝ) (p' : Player) (s' : Rng),
      scalperStep data p s = (.liquidated z, p', s') →
      z = p.balance * (positionSizeRatio * 0.5) ∧ LiquidationOK p p' z) ∧
    (∀ (data : List Candle) (p : Player) (s : Rng) (z : ℝ) (p' : Player) (s' : Rng),
      buyAndHoldCore p data s = ([.liquidated z], p', s') →
      z = p.balance * positionSizeRatio ∧ LiquidationOK p p' z ∧
        (buy_and_hold p data s).1 = []) ∧
    (∀ (data : List Candle) (p : Player) (s : Rng) (z : ℝ) (p' : Player) (s' : Rng),
      dipBuyerCore p data s = ([.liquidated z], p', s') →
      z = p.balance * positionSizeRatio ∧ LiquidationOK p p' z ∧
        (dip_buyer p data s).1 = []) := by
  refine ⟨?_, scalperStep_liquidated, ?_, ?_⟩
  · intro data p s z p' s' h
    obtain ⟨h1, h2⟩ := tradeStep_liquidated data p s z p' s' h
    exact ⟨h1, h2, by simp [completedTrades]⟩
  · intro data p s z p' s' h
    obtain ⟨h1, h2⟩ := buyAndHoldCore_liquidated data p s z p' s' h
    refine ⟨h1, h2, ?_⟩
    have e : (buy_and_hold p data s).1 = completedTrades (buyAndHoldCore p data s).1 := rfl
    rw [e, h]
    simp [completedTrades]
  · intro data p s z p' s' h
    obtain ⟨h1, h2⟩ := dipBuyerCore_liquidated data p s z p' s' h
    refine ⟨h1, h2, ?_⟩
    have e : (dip_buyer p data s).1 = completedTrades (dipBuyerCore p data s).1 := rfl
    rw [e, h]
    simp [completedTrades]

/- ### C9: balance conservation -/

lemma evSum_nil : evSum [] = 0 := by simp [evSum]

lemma evSum_cons (e : TradeEv) (l : List TradeEv) :
    evSum (e :: l) = e.delta + evSum l := by simp [evSum]

lemma scalperStep_completed (data : List Candle) (p : Player) (s : Rng)
    (t : Trade) (p' : Player) (s' : Rng)
    (h : scalperStep data p s = (.completed t, p', s')) :
    NormalExitOK p p' t (p.balance * (positionSizeRatio * 0.5)) := by
  simp only [scalperStep] at h
  split at h
  · simp at h
  · simp only [Prod.mk.injEq, TradeEv.completed.injEq] at h
    obtain ⟨h1, h2, -⟩ := h
    subst h1
    subst h2
    refine ⟨by simp, by simp, by simp, by simp, by simp, ?_, ?_⟩
    · intro hpos
      simp only
      rw [if_pos ?_]
      · simpa using hpos
    · intro hnp
      simp only
      rw [if_neg ?_]
      · simp
      · simpa using not_lt.mpr hnp

lemma tradeStep_balance (data : List Candle) (p : Player) (s : Rng) :
    (tradeStep data p s).2.1.balance = p.balance + ((tradeStep data p s).1).delta := by
  rcases hE : tradeStep data p s with ⟨ev, p', s'⟩
  show p'.balance = p.balance + ev.delta
  cases ev with
  | completed t =>
    have hb := (tradeStep_completed data p s t p' s' hE).2.2.1
    simpa [TradeEv.delta] using hb
  | liquidated z =>
    have hb := (tradeStep_liquidated data p s z p' s' hE).2.1
    simp [TradeEv.delta, hb, sub_eq_add_neg]

lemma scalperStep_balance (data : List Candle) (p : Player) (s : Rng) :
    (scalperStep data p s).2.1.balance = p.balance + ((scalperStep data p s).1).delta := by
  rcases hE : scalperStep data p s with ⟨ev, p', s'⟩
  show p'.balance = p.balance + ev.delta
  cases ev with
  | completed t =>
    have hb := (scalperStep_completed data p s t p' s' hE).2.2.1
    simpa [TradeEv.delta] using hb
  | liquidated z =>
    have hb := (scalperStep_liquidated data p s z p' s' hE).2.1
    simp [TradeEv.delta, hb, sub_eq_add_neg]

lemma randomTraderLoop_balance (data : List Candle) :
    ∀ (n : ℕ) (p : Player) (s : Rng),
      (randomTraderLoop data n p s).2.1.balance =
        p.balance + evSum (randomTraderLoop data n p s).1 := by
  intro n
  induction n with
  | zero => intro p s; simp [randomTraderLoop, evSum_nil]
  | succ n ih =>
    intro p s
    rw [randomTraderLoop]
    split
    · simp [evSum_nil]
    · simp only [evSum_cons]
      rw [ih]
      rw [tradeStep_balance]
      ring

lemma scalperLoop_balance (data : List Candle) :
    ∀ (n : ℕ) (p : Player) (s : Rng),
      (scalperLoop data n p s).2.1.balance =
        p.balance + evSum (scalperLoop data n p s).1 := by
  intro n
  induction n with
  | zero => intro p s; simp [scalperLoop, evSum_nil]
  | succ n ih =>
    intro p s
    rw [scalperLoop]
    split
    · simp [evSum_nil]
    · simp only [evSum_cons]
      rw [ih]
      rw [scalperStep_balance]
      ring

lemma randomTraderCore_balance (p : Player) (data : List Candle) (s : Rng) :
    (randomTraderCore p data s).2.1.balance =
      p.balance + evSum (randomTraderCore p data s).1 := by
  unfold randomTraderCore
  exact randomTraderLoop_balance data _ p _

lemma scalperCore_balance (p : Player) (data : List Candle) (s : Rng) :
    (scalperCore p data s).2.1.balance =
      p.balance + evSum (scalperCore p data s).1 := by
  unfold scalperCore
  exact scalperLoop_balance data _ p _

lemma buyAndHoldCore_balance (p : Player) (data : List Candle) (s : Rng) :
    (buyAndHoldCore p data s).2.1.balance =
      p.balance + evSum (buyAndHoldCore p data s).1 := by
  rcases hE : buyAndHoldCore p data s with ⟨evs, p', s'⟩
  show p'.balance = p.balance + evSum evs
  have h := hE
  simp only [buyAndHoldCore] at h
  split at h
  · simp only [Prod.mk.injEq] at h
    obtain ⟨h1, h2, -⟩ := h
    subst h1
    subst h2
    simp [evSum_nil]
  split at h
  · simp only [Prod.mk.injEq] at h
    obtain ⟨h1, h2, -⟩ := h
    subst h1
    subst h2
    simp [evSum, TradeEv.delta, sub_eq_add_neg]
  · simp only [Prod.mk.injEq] at h
    obtain ⟨h1, h2, -⟩ := h
    subst h1
    subst h2
    simp [evSum, TradeEv.delta]

set_option maxRecDepth 2000 in
lemma dipBuyerCore_balance (p : Player) (data : List Candle) (s : Rng) :
    (dipBuyerCore p data s).2.1.balance =
      p.balance + evSum (dipBuyerCore p data s).1 := by
  rcases hE : dipBuyerCore p data s with ⟨evs, p', s'⟩
  show p'.balance = p.balance + evSum evs
  have h := hE
  simp only [dipBuyerCore] at h
  split at h
  · simp only [Prod.mk.injEq] at h
    obtain ⟨h1, h2, -⟩ := h
    subst h1
    subst h2
    simp [evSum_nil]
  split at h
  · simp only [Prod.mk.injEq] at h
    obtain ⟨h1, h2, -⟩ := h
    subst h1
    subst h2
    simp [evSum_nil]
  split at h
  · simp only [Prod.mk.injEq] at h
    obtain ⟨h1, h2, -⟩ := h
    subst h1
    subst h2
    simp [evSum, TradeEv.delta, sub_eq_add_neg]
  · simp only [Prod.mk.injEq] at h
    obtain ⟨h1, h2, -⟩ := h
    subst h1
    subst h2
    simp [evSum, TradeEv.delta]

lemma strategyCoreFor_balance (tag : String) (p : Player) (data : List Candle) (s : Rng) :
    (strategyCoreFor tag p data s).2.1.balance =
      p.balance + evSum (strategyCoreFor tag p data s).1 := by
  unfold strategyCoreFor
  split_ifs
  · exact randomTraderCore_balance p data s
  · exact buyAndHoldCore_balance p data s
  · exact scalperCore_balance p data s
  · exact dipBuyerCore_balance p data s

lemma strategyFor_eq (tag : String) (p : Player) (data : List Candle) (s : Rng) :
    strategyFor tag p data s =
      (recordsFor tag (strategyCoreFor tag p data s).1,
        (strategyCoreFor tag p data s).2.1,
        (strategyCoreFor tag p data s).2.2) := by
  unfold strategyFor strategyCoreFor recordsFor
  by_cases h1 : tag = "random"
  · have hns : ¬ tag = "scalper" := by rw [h1]; decide
    simp only [if_pos h1, if_neg hns]
    rfl
  by_cases h2 : tag = "hodl"
  · have hns : ¬ tag = "scalper" := by rw [h2]; decide
    simp only [if_neg h1, if_pos h2, if_neg hns]
    rfl
  by_cases h3 : tag = "scalper"
  · simp only [if_neg h1, if_neg h2, if_pos h3]
    rfl
  · simp only [if_neg h1, if_neg h2, if_neg h3]
    rfl

lemma roundLoop_eq_roundLoopEv :
    ∀ (players : List Player) (data : List Candle) (s : Rng),
      roundLoop players data s =
        ((roundLoopEv players data s).1.map Prod.fst,
          (roundLoopEv players data s).2.1,
          (roundLoopEv players data s).2.2) := by
  intro players
  induction players with
  | nil => intro data s; rfl
  | cons p ps ih =>
    intro data s
    by_cases h : p.balance ≤ 0
    · simp only [roundLoop, roundLoopEv, if_pos h]
      rw [ih data s]
      simp
    · simp only [roundLoop, roundLoopEv, if_neg h]
      rw [strategyFor_eq]
      rw [ih data ((strategyCoreFor p.type p data s).2.2)]
      simp

lemma roundLoopEv_balance :
    ∀ (players : List Player) (data : List Candle) (s : Rng),
      List.Forall₂ (fun q pr => (pr : Player × List TradeEv).1.balance =
        (q : Player).balance + evSum pr.2)
        players (roundLoopEv players data s).1 := by
  intro players
  induction players with
  | nil => intro data s; simp [roundLoopEv]
  | cons p ps ih =>
    intro data s
    by_cases h : p.balance ≤ 0
    · simp only [roundLoopEv, if_pos h]
      exact List.Forall₂.cons (by simp [evSum_nil]) (ih data s)
    · simp only [roundLoopEv, if_neg h]
      exact List.Forall₂.cons (strategyCoreFor_balance p.type p data s)
        (ih data ((strategyCoreFor p.type p data s).2.2))

lemma tradeStep_initial (data : List Candle) (p : Player) (s : Rng) :
    (tradeStep data p s).2.1.initial_balance = p.initial_balance := by
  rcases hE : tradeStep data p s with ⟨ev, p', s'⟩
  have h := hE
  simp only [tradeStep] at h
  split at h
  · simp only [Prod.mk.injEq] at h
    obtain ⟨-, h2, -⟩ := h
    subst h2
    rfl
  · simp only [Prod.mk.injEq] at h
    obtain ⟨-, h2, -⟩ := h
    subst h2
    rfl

lemma scalperStep_initial (data : List Candle) (p : Player) (s : Rng) :
    (scalperStep data p s).2.1.initial_balance = p.initial_balance := by
  rcases hE : scalperStep data p s with ⟨ev, p', s'⟩
  have h := hE
  simp only [scalperStep] at h
  split at h
  · simp only [Prod.mk.injEq] at h
    obtain ⟨-, h2, -⟩ := h
    subst h2
    rfl
  · simp only [Prod.mk.injEq] at h
    obtain ⟨-, h2, -⟩ := h
    subst h2
    rfl

lemma randomTraderLoop_initial (data : List Candle) :
    ∀ (n : ℕ) (p : Player) (s : Rng),
      (randomTraderLoop data n p s).2.1.initial_balance = p.initial_balance := by
  intro n
  induction n with
  | zero => intro p s; rfl
  | succ n ih =>
    intro p s
    rw [randomTraderLoop]
    split
    · rfl
    · show (randomTraderLoop data n (tradeStep data p s).2.1
          (tradeStep data p s).2.2).2.1.initial_balance = p.initial_balance
      rw [ih, tradeStep_initial]

lemma scalperLoop_initial (data : List Candle) :
    ∀ (n : ℕ) (p : Player) (s : Rng),
      (scalperLoop data n p s).2.1.initial_balance = p.initial_balance := by
  intro n
  induction n with
  | zero => intro p s; rfl
  | succ n ih =>
    intro p s
    rw [scalperLoop]
    split
    · rfl
    · show (scalperLoop data n (scalperStep data p s).2.1
          (scalperStep data p s).2.2).2.1.initial_balance = p.initial_balance
      rw [ih, scalperStep_initial]

lemma buyAndHoldCore_initial (p : Player) (data : List Candle) (s : Rng) :
    (buyAndHoldCore p data s).2.1.initial_balance = p.initial_balance := by
  rcases hE : buyAndHoldCore p data s with ⟨evs, p', s'⟩
  have h := hE
  simp only [buyAndHoldCore] at h
  split at h
  · simp only [Prod.mk.injEq] at h
    obtain ⟨-, h2, -⟩ := h
    subst h2
    rfl
  split at h
  · simp only [Prod.mk.injEq] at h
    obtain ⟨-, h2, -⟩ := h
    subst h2
    rfl
  · simp only [Prod.mk.injEq] at h
    obtain ⟨-, h2, -⟩ := h
    subst h2
    rfl

set_option maxRecDepth 2000 in
lemma dipBuyerCore_initial (p : Player) (data : List Candle) (s : Rng) :
    (dipBuyerCore p data s).2.1.initial_balance = p.initial_balance := by
  rcases hE : dipBuyerCore p data s with ⟨evs, p', s'⟩
  have h := hE
  simp only [dipBuyerCore] at h
  split at h
  · simp only [Prod.mk.injEq] at h
    obtain ⟨-, h2, -⟩ := h
    subst h2
    rfl
  split at h
  · simp only [Prod.mk.injEq] at h
    obtain ⟨-, h2, -⟩ := h
    subst h2
    rfl
  split at h
  · simp only [Prod.mk.injEq] at h
    obtain ⟨-, h2, -⟩ := h
    subst h2
    rfl
  · simp only [Prod.mk.injEq] at h
    obtain ⟨-, h2, -⟩ := h
    subst h2
    rfl

lemma strategyCoreFor_initial (tag : String) (p : Player) (data : List Candle) (s : Rng) :
    (strategyCoreFor tag p data s).2.1.initial_balance = p.initial_balance := by
  unfold strategyCoreFor
  split_ifs
  · unfold randomTraderCore
    exact randomTraderLoop_initial data _ p _
  · exact buyAndHoldCore_initial p data s
  · unfold scalperCore
    exact scalperLoop_initial data _ p _
  · exact dipBuyerCore_initial p data s

lemma roundLoopEv_conserved :
    ∀ (players : List Player) (data : List Candle) (s : Rng),
      List.Forall₂ RoundConserved players (roundLoopEv players data s).1 := by
  intro players
  induction players with
  | nil => intro data s; simp [roundLoopEv]
  | cons p ps ih =>
    intro data s
    by_cases h : p.balance ≤ 0
    · simp only [roundLoopEv, if_pos h]
      exact List.Forall₂.cons ⟨by simp [evSum_nil], rfl⟩ (ih data s)
    · simp only [roundLoopEv, if_neg h]
      exact List.Forall₂.cons
        ⟨strategyCoreFor_balance p.type p data s, strategyCoreFor_initial p.type p data s⟩
        (ih data ((strategyCoreFor p.type p data s).2.2))

lemma playRound_players (players : List Player) (data : List Candle) (s : Rng) :
    (playRound players data s).1 = (roundLoopEv players data s).1.map Prod.fst := by
  show (roundLoop players data s).1 = _
  rw [roundLoop_eq_roundLoopEv]

lemma playRound_rng (players : List Player) (data : List Candle) (s : Rng) :
    (playRound players data s).2.2.2 = (roundLoopEv players data s).2.2 := by
  show (roundLoop players data s).2.2 = _
  rw [roundLoop_eq_roundLoopEv]

lemma conservation_compose (ps : List Player) (prs : List (Player × List TradeEv)) :
    ∀ (finals : List Player) (ds : List ℝ),
      List.Forall₂ RoundConserved ps prs →
      List.Forall₂ ConservedStep (prs.map Prod.fst) (finals.zip ds) →
      List.Forall₂ ConservedStep ps
        (finals.zip (List.zipWith (fun pr d => evSum pr.2 + d) prs ds)) := by
  intro finals ds h1
  induction h1 generalizing finals ds with
  | nil =>
    intro h2
    simp
  | cons hr hrest ih =>
    rename_i q pr ps' prs'
    intro h2
    cases finals with
    | nil => cases h2
    | cons f fs =>
      cases ds with
      | nil => cases h2
      | cons d ds' =>
        cases h2 with
        | cons hh ht =>
          refine List.Forall₂.cons ?_ (ih fs ds' ht)
          obtain ⟨hb1, hi1⟩ := hr
          obtain ⟨hb2, hi2⟩ := hh
          constructor
          · show f.balance = q.balance + (evSum pr.2 + d)
            have hb2' : f.balance = pr.1.balance + d := hb2
            rw [hb2', hb1]
            ring
          · show f.initial_balance = q.initial_balance
            have hi2' : f.initial_balance = pr.1.initial_balance := hi2
            rw [hi2', hi1]

lemma conserved_zero :
    ∀ (ps : List Player),
      List.Forall₂ ConservedStep ps (ps.zip (ps.map fun _ => (0:ℝ))) := by
  intro ps
  induction ps with
  | nil => simp
  | cons q t ih =>
    simp only [List.map_cons, List.zip_cons_cons]
    refine List.Forall₂.cons ?_ ih
    constructor
    · show q.balance = q.balance + 0
      ring
    · rfl

lemma simLoop_conserved :
    ∀ (rounds : List (List Candle)) (players : List Player) (s : Rng),
      List.Forall₂ ConservedStep players
        ((simLoop rounds players s).1.zip (simLoopEvDeltas rounds players s)) := by
  intro rounds
  induction rounds with
  | nil =>
    intro players s
    simp only [simLoop, simLoopEvDeltas]
    exact conserved_zero players
  | cons data rest ih =>
    intro players s
    rw [simLoop, simLoopEvDeltas]
    show List.Forall₂ ConservedStep players
      ((simLoop rest (playRound players data s).1 (playRound players data s).2.2.2).1.zip
        (List.zipWith (fun pr d => evSum pr.2 + d) (roundLoopEv players data s).1
          (simLoopEvDeltas rest ((roundLoopEv players data s).1.map Prod.fst)
            (roundLoopEv players data s).2.2)))
    rw [playRound_players, playRound_rng]
    exact conservation_compose players (roundLoopEv players data s).1 _ _
      (roundLoopEv_conserved players data s)
      (ih ((roundLoopEv players data s).1.map Prod.fst)
        ((roundLoopEv players data s).2.2))

lemma forall₂_exists_left {α β : Type _} {R : α → β → Prop} :
    ∀ {l₁ : List α} {l₂ : List β}, List.Forall₂ R l₁ l₂ →
      ∀ b ∈ l₂, ∃ a ∈ l₁, R a b := by
  intro l₁ l₂ h
  induction h with
  | nil => intro b hb; simp at hb
  | cons hr hrest ih =>
    rename_i a b' l₁' l₂'
    intro b hb
    rcases List.mem_cons.mp hb with hb | hb
    · subst hb
      exact ⟨a, List.mem_cons_self a l₁', hr⟩
    · obtain ⟨a', ha', hra'⟩ := ih b hb
      exact ⟨a', List.mem_cons_of_mem a ha', hra'⟩

lemma simLoop_initial_balance (rounds : List (List Candle))
    (players : List Player) (s : Rng)
    (hinit : ∀ q ∈ players, q.balance = q.initial_balance) :
    ∀ pd ∈ (simLoop rounds players s).1.zip (simLoopEvDeltas rounds players s),
      pd.1.balance = pd.1.initial_balance + pd.2 := by
  intro pd hpd
  obtain ⟨q, hq, hR⟩ := forall₂_exists_left (simLoop_conserved rounds players s) pd hpd
  obtain ⟨hb, hi⟩ := hR
  rw [hb, hi, hinit q hq]

/-- **C9.**  Balance conservation.  Over any strategy execution the
player's final balance equals the balance at entry plus the sum of net
PnLs of the positions that reached normal exits minus the sum of
liquidated position sizes (the ghost event log records exactly these
deltas); the per-round player loop preserves this per player, and the
uninstrumented round loop is its projection.  At run level, across any
sequence of rounds of `run_trading_simulation`'s loop: each player's
final balance equals its start-of-run balance plus its accumulated run
delta, with the `initial_balance` field untouched; hence for players
created with balance = initial balance (as `Player.__init__` does), the
final balance equals the initial balance plus the sum of net PnLs of
normal trades minus the sum of liquidated position sizes. -/
theorem balance_conservation :
    (∀ (p : Player) (data : List Candle) (s : Rng),
      (randomTraderCore p data s).2.1.balance =
        p.balance + evSum (randomTraderCore p data s).1) ∧
    (∀ (p : Player) (data : List Candle) (s : Rng),
      (buyAndHoldCore p data s).2.1.balance =
        p.balance + evSum (buyAndHoldCore p data s).1) ∧
    (∀ (p : Player) (data : List Candle) (s : Rng),
      (scalperCore p data s).2.1.balance =
        p.balance + evSum (scalperCore p data s).1) ∧
    (∀ (p : Player) (data : List Candle) (s : Rng),
      (dipBuyerCore p data s).2.1.balance =
        p.balance + evSum (dipBuyerCore p data s).1) ∧
    (∀ (players : List Player) (data : List Candle) (s : Rng),
      roundLoop players data s =
        ((roundLoopEv players data s).1.map Prod.fst,
          (roundLoopEv players data s).2.1,
          (roundLoopEv players data s).2.2)) ∧
    (∀ (players : List Player) (data : List Candle) (s : Rng),
      List.Forall₂ (fun q pr => (pr : Player × List TradeEv).1.balance =
        (q : Player).balance + evSum pr.2)
        players (roundLoopEv players data s).1) ∧
    (∀ (rounds : List (List Candle)) (players : List Player) (s : Rng),
      List.Forall₂ ConservedStep players
        ((simLoop rounds players s).1.zip (simLoopEvDeltas rounds players s))) ∧
    (∀ (rounds : List (List Candle)) (players : List Player) (s : Rng),
      (∀ q ∈ players, q.balance = q.initial_balance) →
      ∀ pd ∈ (simLoop rounds players s).1.zip (simLoopEvDeltas rounds players s),
        pd.1.balance = pd.1.initial_balance + pd.2) :=
  ⟨randomTraderCore_balance, buyAndHoldCore_balance, scalperCore_balance,
    dipBuyerCore_balance, roundLoop_eq_roundLoopEv, roundLoopEv_balance,
    simLoop_conserved, simLoop_initial_balance⟩

/-- Witness for C9: a one-player, one-round run (buy-and-hold, balance
1000 = initial balance, 161 unit candles, constant-1/2 draws), with the
start-balance hypothesis discharged concretely. -/
theorem balance_conservation_witness :
    (∀ q ∈ [Player.make "hodl" 1000], q.balance = q.initial_balance) ∧
    (∀ pd ∈ (simLoop [data161] [Player.make "hodl" 1000] (halfRng 0)).1.zip
        (simLoopEvDeltas [data161] [Player.make "hodl" 1000] (halfRng 0)),
      pd.1.balance = pd.1.initial_balance + pd.2) := by
  have hinit : ∀ q ∈ [Player.make "hodl" 1000], q.balance = q.initial_balance := by
    intro q hq
    rw [List.mem_singleton] at hq
    subst hq
    rfl
  exact ⟨hinit,
    balance_conservation.2.2.2.2.2.2.2 [data161] [Player.make "hodl" 1000]
      (halfRng 0) hinit⟩

/- ### C10: strict positivity of balances -/

lemma Rng.Valid.next_valid {s : Rng} (h : s.Valid) : (s.next).2.Valid := h

lemma Rng.Valid.next_bounds {s : Rng} (h : s.Valid) :
    0 ≤ (s.next).1 ∧ (s.next).1 < 1 := h s.k

lemma randIntNat_valid (s : Rng) (a b : ℕ) (h : s.Valid) :
    (randIntNat s a b).2.Valid := h

lemma randIntNat_bounds (s : Rng) (a b : ℕ) (h : s.Valid) (hab : a ≤ b) :
    a ≤ (randIntNat s a b).1 ∧ (randIntNat s a b).1 ≤ b := by
  unfold randIntNat Rng.next
  simp only
  constructor
  · exact Nat.le_add_right a _
  · have hx0 : (0:ℝ) ≤ s.u s.k := (h s.k).1
    have hx1 : s.u s.k < 1 := (h s.k).2
    have hba : (a:ℝ) ≤ (b:ℝ) := Nat.cast_le.mpr hab
    have hpos : (0:ℝ) < (b:ℝ) + 1 - (a:ℝ) := by linarith
    have hy : s.u s.k * ((b:ℝ) + 1 - (a:ℝ)) < (b:ℝ) + 1 - (a:ℝ) := by
      nlinarith
    have hfl : ⌊s.u s.k * ((b:ℝ) + 1 - (a:ℝ))⌋₊ < b - a + 1 := by
      rw [Nat.floor_lt (by positivity)]
      push_cast [Nat.cast_sub hab]
      linarith
    omega

lemma calcLiqProbRng_valid (c : ℕ) (pd psr pp : Option ℝ) (s : Rng) (h : s.Valid) :
    (calcLiqProbRng c pd psr pp s).2.Valid := by
  unfold calcLiqProbRng
  split
  · exact h
  · exact h

lemma check_liquidation_valid (c : ℕ) (pd psr pp : Option ℝ) (s : Rng) (h : s.Valid) :
    (check_liquidation c pd psr pp s).2.Valid := by
  unfold check_liquidation
  exact calcLiqProbRng_valid c pd psr pp s h

lemma holdScan_valid (data : List Candle) (e : ℕ) (ep ps bal ratio : ℝ) :
    ∀ (c fuel : ℕ) (s : Rng), s.Valid →
      (holdScan data e ep ps bal ratio c fuel s).2.Valid := by
  intro c fuel
  induction fuel generalizing c with
  | zero => intro s h; exact h
  | succ fuel ih =>
    intro s h
    rw [holdScan]
    split
    · exact check_liquidation_valid _ _ _ _ _ h
    · exact ih _ _ (check_liquidation_valid _ _ _ _ _ h)

lemma closeAt_pos (data : List Candle) (i : ℕ) (hi : i < data.length)
    (hc : ∀ c ∈ data, 0 < c.close_price) : 0 < closeAt data i := by
  unfold closeAt
  apply hc
  rw [List.getD_eq_getElem?_getD, List.getElem?_eq_getElem hi, Option.getD_some]
  exact List.getElem_mem hi

/-- Strict positivity of the post-trade balance for a normal exit:
`0 < b + ((e2 - e1) * (b * ρ / e1) - b * ρ * fee)` whenever the prices
are positive, the balance is positive, and `ρ * (1 + fee) < 1`. -/
lemma normal_exit_pos (b e1 e2 ρ fee : ℝ) (hb : 0 < b) (he1 : 0 < e1)
    (he2 : 0 < e2) (hρ : 0 < ρ) (hfee : 0 ≤ fee) (hρf : ρ * (1 + fee) < 1) :
    0 < b + ((e2 - e1) * (b * ρ / e1) - b * ρ * fee) := by
  have key : (e2 - e1) * (b * ρ / e1) = b * ρ * e2 / e1 - b * ρ := by
    field_simp
    ring
  have hq : 0 < b * ρ * e2 / e1 := by positivity
  rw [key]
  nlinarith

lemma tradeStep_pos (data : List Candle) (p : Player) (s : Rng)
    (hv : s.Valid) (hb : 0 < p.balance)
    (hc : ∀ c ∈ data, 0 < c.close_price) (hl : 200 ≤ data.length) :
    0 < (tradeStep data p s).2.1.balance ∧ (tradeStep data p s).2.2.Valid := by
  rcases hE : tradeStep data p s with ⟨ev, p', s'⟩
  have h := hE
  simp only [tradeStep] at h
  have hv1 : (randIntNat s GRACE_PERIOD_CANDLES (data.length - 50)).2.Valid :=
    randIntNat_valid _ _ _ hv
  have hent := randIntNat_bounds s GRACE_PERIOD_CANDLES (data.length - 50) hv
    (by unfold GRACE_PERIOD_CANDLES; omega)
  have hv2 : (randIntNat (randIntNat s GRACE_PERIOD_CANDLES (data.length - 50)).2
      10 100).2.Valid := randIntNat_valid _ _ _ hv1
  have hsv := holdScan_valid data
    (randIntNat s GRACE_PERIOD_CANDLES (data.length - 50)).1
    (closeAt data (randIntNat s GRACE_PERIOD_CANDLES (data.length - 50)).1)
    (p.balance * positionSizeRatio) p.balance positionSizeRatio
    (randIntNat s GRACE_PERIOD_CANDLES (data.length - 50)).1
    ((min ((randIntNat s GRACE_PERIOD_CANDLES (data.length - 50)).1 +
        (randIntNat (randIntNat s GRACE_PERIOD_CANDLES (data.length - 50)).2 10 100).1)
      (data.length - 1)) + 1 -
      (randIntNat s GRACE_PERIOD_CANDLES (data.length - 50)).1)
    _ hv2
  split at h
  · simp only [Prod.mk.injEq] at h
    obtain ⟨-, h2, h3⟩ := h
    subst h2
    constructor
    · show 0 < p.balance - p.balance * positionSizeRatio
      unfold positionSizeRatio
      nlinarith
    · show s'.Valid
      rw [← h3]
      exact hsv
  · simp only [Prod.mk.injEq] at h
    obtain ⟨-, h2, h3⟩ := h
    subst h2
    have hei : (randIntNat s GRACE_PERIOD_CANDLES (data.length - 50)).1 < data.length := by
      omega
    have hxi : min ((randIntNat s GRACE_PERIOD_CANDLES (data.length - 50)).1 +
        (randIntNat (randIntNat s GRACE_PERIOD_CANDLES (data.length - 50)).2 10 100).1)
        (data.length - 1) < data.length := by
      omega
    have hep := closeAt_pos data _ hei hc
    have hxp := closeAt_pos data _ hxi hc
    constructor
    · show 0 < p.balance +
        ((closeAt data (min ((randIntNat s GRACE_PERIOD_CANDLES (data.length - 50)).1 +
            (randIntNat (randIntNat s GRACE_PERIOD_CANDLES (data.length - 50)).2 10 100).1)
          (data.length - 1)) -
          closeAt data (randIntNat s GRACE_PERIOD_CANDLES (data.length - 50)).1) *
          (p.balance * positionSizeRatio /
            closeAt data (randIntNat s GRACE_PERIOD_CANDLES (data.length - 50)).1) -
          p.balance * positionSizeRatio * TRADING_FEE_RATE)
      unfold positionSizeRatio TRADING_FEE_RATE
      exact normal_exit_pos _ _ _ _ _ hb hep hxp (by norm_num) (by norm_num)
        (by norm_num)
    · show s'.Valid
      rw [← h3]
      exact hsv

lemma scalperStep_pos (data : List Candle) (p : Player) (s : Rng)
    (hv : s.Valid) (hb : 0 < p.balance)
    (hc : ∀ c ∈ data, 0 < c.close_price) (hl : 200 ≤ data.length) :
    0 < (scalperStep data p s).2.1.balance ∧ (scalperStep data p s).2.2.Valid := by
  rcases hE : scalperStep data p s with ⟨ev, p', s'⟩
  have h := hE
  simp only [scalperStep] at h
  have hv1 : (randIntNat s GRACE_PERIOD_CANDLES (data.length - 20)).2.Valid :=
    randIntNat_valid _ _ _ hv
  have hent := randIntNat_bounds s GRACE_PERIOD_CANDLES (data.length - 20) hv
    (by unfold GRACE_PERIOD_CANDLES; omega)
  have hv2 : (randIntNat (randIntNat s GRACE_PERIOD_CANDLES (data.length - 20)).2
      5 30).2.Valid := randIntNat_valid _ _ _ hv1
  have hsv := holdScan_valid data
    (randIntNat s GRACE_PERIOD_CANDLES (data.length - 20)).1
    (closeAt data (randIntNat s GRACE_PERIOD_CANDLES (data.length - 20)).1)
    (p.balance * (positionSizeRatio * 0.5)) p.balance (positionSizeRatio * 0.5)
    (randIntNat s GRACE_PERIOD_CANDLES (data.length - 20)).1
    ((min ((randIntNat s GRACE_PERIOD_CANDLES (data.length - 20)).1 +
        (randIntNat (randIntNat s GRACE_PERIOD_CANDLES (data.length - 20)).2 5 30).1)
      (data.length - 1)) + 1 -
      (randIntNat s GRACE_PERIOD_CANDLES (data.length - 20)).1)
    _ hv2
  split at h
  · simp only [Prod.mk.injEq] at h
    obtain ⟨-, h2, h3⟩ := h
    subst h2
    constructor
    · show 0 < p.balance - p.balance * (positionSizeRatio * 0.5)
      unfold positionSizeRatio
      nlinarith
    · show s'.Valid
      rw [← h3]
      exact hsv
  · simp only [Prod.mk.injEq] at h
    obtain ⟨-, h2, h3⟩ := h
    subst h2
    have hei : (randIntNat s GRACE_PERIOD_CANDLES (data.length - 20)).1 < data.length := by
      omega
    have hxi : min ((randIntNat s GRACE_PERIOD_CANDLES (data.length - 20)).1 +
        (randIntNat (randIntNat s GRACE_PERIOD_CANDLES (data.length - 20)).2 5 30).1)
        (data.length - 1) < data.length := by
      omega
    have hep := closeAt_pos data _ hei hc
    have hxp := closeAt_pos data _ hxi hc
    constructor
    · show 0 < p.balance +
        ((closeAt data (min ((randIntNat s GRACE_PERIOD_CANDLES (data.length - 20)).1 +
            (randIntNat (randIntNat s GRACE_PERIOD_CANDLES (data.length - 20)).2 5 30).1)
          (data.length - 1)) -
          closeAt data (randIntNat s GRACE_PERIOD_CANDLES (data.length - 20)).1) *
          (p.balance * (positionSizeRatio * 0.5) /
            closeAt data (randIntNat s GRACE_PERIOD_CANDLES (data.length - 20)).1) -
          p.balance * (positionSizeRatio * 0.5) * TRADING_FEE_RATE)
      unfold positionSizeRatio TRADING_FEE_RATE
      exact normal_exit_pos _ _ _ _ _ hb hep hxp (by norm_num) (by norm_num)
        (by norm_num)
    · show s'.Valid
      rw [← h3]
      exact hsv

lemma buyAndHoldCore_pos (p : Player) (data : List Candle) (s : Rng)
    (hv : s.Valid) (hb : 0 < p.balance)
    (hc : ∀ c ∈ data, 0 < c.close_price) (hl : 200 ≤ data.length) :
    0 < (buyAndHoldCore p data s).2.1.balance ∧ (buyAndHoldCore p data s).2.2.Valid := by
  rcases hE : buyAndHoldCore p data s with ⟨evs, p', s'⟩
  have h := hE
  simp only [buyAndHoldCore] at h
  split at h
  · simp only [Prod.mk.injEq] at h
    obtain ⟨-, h2, h3⟩ := h
    subst h2
    subst h3
    exact ⟨hb, hv⟩
  have hsv := holdScan_valid data (GRACE_PERIOD_CANDLES + 10)
    (closeAt data (GRACE_PERIOD_CANDLES + 10)) (p.balance * positionSizeRatio)
    p.balance positionSizeRatio (GRACE_PERIOD_CANDLES + 10)
    (data.length - (GRACE_PERIOD_CANDLES + 10)) s hv
  split at h
  · simp only [Prod.mk.injEq] at h
    obtain ⟨-, h2, h3⟩ := h
    subst h2
    constructor
    · show 0 < p.balance - p.balance * positionSizeRatio
      unfold positionSizeRatio
      linarith
    · show s'.Valid
      rw [← h3]
      exact hsv
  · simp only [Prod.mk.injEq] at h
    obtain ⟨-, h2, h3⟩ := h
    subst h2
    have hei : GRACE_PERIOD_CANDLES + 10 < data.length := by
      unfold GRACE_PERIOD_CANDLES
      omega
    have hxi : data.length - 1 < data.length := by omega
    have hep := closeAt_pos data _ hei hc
    have hxp := closeAt_pos data _ hxi hc
    constructor
    · show 0 < p.balance +
        ((closeAt data (data.length - 1) - closeAt data (GRACE_PERIOD_CANDLES + 10)) *
          (p.balance * positionSizeRatio / closeAt data (GRACE_PERIOD_CANDLES + 10)) -
          p.balance * positionSizeRatio * TRADING_FEE_RATE)
      unfold positionSizeRatio TRADING_FEE_RATE
      exact normal_exit_pos _ _ _ _ _ hb hep hxp (by norm_num) (by norm_num)
        (by norm_num)
    · show s'.Valid
      rw [← h3]
      exact hsv

lemma findDip_range (data : List Candle) :
    ∀ (fuel i j : ℕ), findDip data i fuel = some j → i ≤ j ∧ j < i + fuel := by
  intro fuel
  induction fuel with
  | zero => intro i j h; simp [findDip] at h
  | succ fuel ih =>
    intro i j h
    rw [findDip] at h
    split at h
    · simp only [Option.some_inj] at h
      subst h
      omega
    · have := ih (i + 1) j h
      omega

set_option maxRecDepth 4000 in
lemma dipBuyerCore_pos (p : Player) (data : List Candle) (s : Rng)
    (hv : s.Valid) (hb : 0 < p.balance)
    (hc : ∀ c ∈ data, 0 < c.close_price) (hl : 200 ≤ data.length) :
    0 < (dipBuyerCore p data s).2.1.balance ∧ (dipBuyerCore p data s).2.2.Valid := by
  rcases hE : dipBuyerCore p data s with ⟨evs, p', s'⟩
  have h := hE
  simp only [dipBuyerCore] at h
  split at h
  · simp only [Prod.mk.injEq] at h
    obtain ⟨-, h2, h3⟩ := h
    subst h2
    subst h3
    exact ⟨hb, hv⟩
  split at h
  · simp only [Prod.mk.injEq] at h
    obtain ⟨-, h2, h3⟩ := h
    subst h2
    subst h3
    exact ⟨hb, hv⟩
  · rename_i entry_candle hdip
    have hrange := findDip_range data _ _ _ hdip
    have hent : entry_candle < data.length := by
      unfold GRACE_PERIOD_CANDLES at hrange
      omega
    have hv1 : (randIntNat s 30 80).2.Valid := randIntNat_valid _ _ _ hv
    have hsv := holdScan_valid data entry_candle (closeAt data entry_candle)
      (p.balance * positionSizeRatio) p.balance positionSizeRatio entry_candle
      ((min (entry_candle + (randIntNat s 30 80).1) (data.length - 1)) + 1 - entry_candle)
      _ hv1
    split at h
    · simp only [Prod.mk.injEq] at h
      obtain ⟨-, h2, h3⟩ := h
      subst h2
      constructor
      · show 0 < p.balance - p.balance * positionSizeRatio
        unfold positionSizeRatio
        linarith
      · show s'.Valid
        rw [← h3]
        exact hsv
    · simp only [Prod.mk.injEq] at h
      obtain ⟨-, h2, h3⟩ := h
      subst h2
      have hxi : min (entry_candle + (randIntNat s 30 80).1) (data.length - 1) <
          data.length := by omega
      have hep := closeAt_pos data _ hent hc
      have hxp := closeAt_pos data _ hxi hc
      constructor
      · show 0 < p.balance +
          ((closeAt data (min (entry_candle + (randIntNat s 30 80).1) (data.length - 1)) -
            closeAt data entry_candle) *
            (p.balance * positionSizeRatio / closeAt data entry_candle) -
            p.balance * positionSizeRatio * TRADING_FEE_RATE)
        unfold positionSizeRatio TRADING_FEE_RATE
        exact normal_exit_pos _ _ _ _ _ hb hep hxp (by norm_num) (by norm_num)
          (by norm_num)
      · show s'.Valid
        rw [← h3]
        exact hsv

lemma randomTraderLoop_pos (data : List Candle)
    (hc : ∀ c ∈ data, 0 < c.close_price) (hl : 200 ≤ data.length) :
    ∀ (n : ℕ) (p : Player) (s : Rng), s.Valid → 0 < p.balance →
      0 < (randomTraderLoop data n p s).2.1.balance ∧
        (randomTraderLoop data n p s).2.2.Valid := by
  intro n
  induction n with
  | zero => intro p s hv hb; exact ⟨hb, hv⟩
  | succ n ih =>
    intro p s hv hb
    rw [randomTraderLoop]
    split
    · exact ⟨hb, hv⟩
    · obtain ⟨hb', hv'⟩ := tradeStep_pos data p s hv hb hc hl
      exact ih _ _ hv' hb'

lemma scalperLoop_pos (data : List Candle)
    (hc : ∀ c ∈ data, 0 < c.close_price) (hl : 200 ≤ data.length) :
    ∀ (n : ℕ) (p : Player) (s : Rng), s.Valid → 0 < p.balance →
      0 < (scalperLoop data n p s).2.1.balance ∧
        (scalperLoop data n p s).2.2.Valid := by
  intro n
  induction n with
  | zero => intro p s hv hb; exact ⟨hb, hv⟩
  | succ n ih =>
    intro p s hv hb
    rw [scalperLoop]
    split
    · exact ⟨hb, hv⟩
    · obtain ⟨hb', hv'⟩ := scalperStep_pos data p s hv hb hc hl
      exact ih _ _ hv' hb'

lemma numTradesChoice_valid (s : Rng) (h : s.Valid) : (numTradesChoice s).2.Valid := h

/-- **C10.**  A player with strictly positive balance keeps a strictly
positive balance through any execution of any of the four strategies
(over candle data with strictly positive closes and the round length the
simulator uses): a liquidation forfeits only 20% (scalper: 10%) of the
balance, and a normal exit loses strictly less than `(1 + fee rate) ×
position size` because the exit price is strictly positive.  Hence a
player starting from the positive initial balance is never eliminated
and the `balance <= 0` skip branches never fire. -/
theorem strategies_preserve_positive_balance
    (p : Player) (data : List Candle) (s : Rng)
    (hv : s.Valid) (hb : 0 < p.balance)
    (hc : ∀ c ∈ data, 0 < c.close_price) (hl : 200 ≤ data.length) :
    0 < (random_trader p data s).2.1.balance ∧
    0 < (buy_and_hold p data s).2.1.balance ∧
    0 < (scalper p data s).2.1.balance ∧
    0 < (dip_buyer p data s).2.1.balance := by
  refine ⟨?_, ?_, ?_, ?_⟩
  · show 0 < (randomTraderCore p data s).2.1.balance
    unfold randomTraderCore
    exact (randomTraderLoop_pos data hc hl _ p _ (numTradesChoice_valid s hv) hb).1
  · show 0 < (buyAndHoldCore p data s).2.1.balance
    exact (buyAndHoldCore_pos p data s hv hb hc hl).1
  · show 0 < (scalperCore p data s).2.1.balance
    unfold scalperCore
    exact (scalperLoop_pos data hc hl _ p _ (randIntNat_valid s 5 15 hv) hb).1
  · show 0 < (dipBuyerCore p data s).2.1.balance
    exact (dipBuyerCore_pos p data s hv hb hc hl).1

/-- Witness for C10: a buy-and-hold player with balance 1000 on 200 unit
candles and the constant-1/2 draw stream. -/
theorem strategies_preserve_positive_balance_witness :
    ((Rng.mk (fun _ => (1:ℝ)/2) 0).Valid ∧
      0 < (Player.make "hodl" 1000).balance ∧
      (∀ c ∈ List.replicate 200 unitCandle, 0 < c.close_price) ∧
      200 ≤ (List.replicate 200 unitCandle).length) ∧
    (0 < (random_trader (Player.make "hodl" 1000) (List.replicate 200 unitCandle)
        (Rng.mk (fun _ => (1:ℝ)/2) 0)).2.1.balance ∧
      0 < (buy_and_hold (Player.make "hodl" 1000) (List.replicate 200 unitCandle)
        (Rng.mk (fun _ => (1:ℝ)/2) 0)).2.1.balance ∧
      0 < (scalper (Player.make "hodl" 1000) (List.replicate 200 unitCandle)
        (Rng.mk (fun _ => (1:ℝ)/2) 0)).2.1.balance ∧
      0 < (dip_buyer (Player.make "hodl" 1000) (List.replicate 200 unitCandle)
        (Rng.mk (fun _ => (1:ℝ)/2) 0)).2.1.balance) := by
  have hv : (Rng.mk (fun _ => (1:ℝ)/2) 0).Valid := by
    intro n
    constructor <;> norm_num
  have hb : 0 < (Player.make "hodl" 1000).balance := by
    show (0:ℝ) < 1000
    norm_num
  have hc : ∀ c ∈ List.replicate 200 unitCandle, 0 < c.close_price := by
    intro c hcm
    rw [List.eq_of_mem_replicate hcm]
    show (0:ℝ) < 1
    norm_num
  have hl : 200 ≤ (List.replicate 200 unitCandle).length := by
    rw [List.length_replicate]
  exact ⟨⟨hv, hb, hc, hl⟩,
    strategies_preserve_positive_balance _ _ _ hv hb hc hl⟩


/- ### Concrete evaluation runs (C2, C3, and the C4/C5 witnesses) -/

lemma nfloor_zero (x : ℝ) (h0 : x < 1) : ⌊x⌋₊ = 0 := Nat.floor_eq_zero.mpr h0

lemma closeAt_replicate_unit (n i : ℕ) (h : i < n) :
    closeAt (List.replicate n unitCandle) i = 1 := by
  unfold closeAt
  rw [List.getD_eq_getElem?_getD, List.getElem?_replicate, if_pos h]
  rfl

set_option maxHeartbeats 1000000 in
set_option maxRecDepth 100000 in
lemma tradeStep_run_liquidated :
    tradeStep data200 (Player.make "random" 1000) (zeroRng 0) =
      (.liquidated 200,
        { Player.make "random" 1000 with balance := 800, liquidations_suffered := 1 },
        zeroRng 6) := by
  norm_num [tradeStep, data200, randIntNat, Rng.next, zeroRng, holdScan,
    check_liquidation, calcLiqProbRng, calculate_liquidation_probability,
    composedRisk, baseChance, timeRisk, sizeRisk, greedRisk,
    closeAt_replicate_unit, GRACE_PERIOD_CANDLES, RAMP_UP_PERIOD,
    positionSizeRatio, TRADING_FEE_RATE, Player.make, min_def]

/-- Witness for C5: the concrete random-trader position above is
liquidated at candle 151 (hold duration 1), forfeiting exactly the
position size `1000 × 0.2 = 200` and touching no other field. -/
theorem liquidation_frame_witness :
    tradeStep data200 (Player.make "random" 1000) (zeroRng 0) =
      (.liquidated 200,
        { Player.make "random" 1000 with balance := 800, liquidations_suffered := 1 },
        zeroRng 6) ∧
    ((200:ℝ) = (Player.make "random" 1000).balance * positionSizeRatio ∧
      LiquidationOK (Player.make "random" 1000)
        { Player.make "random" 1000 with balance := 800, liquidations_suffered := 1 }
        200 ∧
      completedTrades [.liquidated 200] = []) :=
  ⟨tradeStep_run_liquidated,
    liquidation_frame.1 data200 (Player.make "random" 1000) (zeroRng 0) 200
      _ (zeroRng 6) tradeStep_run_liquidated⟩

set_option maxHeartbeats 1000000 in
set_option maxRecDepth 100000 in
lemma buyAndHold_run_completed :
    buyAndHoldCore (Player.make "hodl" 1000) data161 (halfRng 0) =
      ([.completed ⟨160, 160, 1, 1, 0, -(0.4 : ℝ), 0.4⟩],
        { Player.make "hodl" 1000 with
            balance := 999.6, total_fees_paid := 0.4, total_trades := 1 },
        halfRng 2) := by
  norm_num [buyAndHoldCore, data161, randIntNat, Rng.next, halfRng, holdScan,
    check_liquidation, calcLiqProbRng, calculate_liquidation_probability,
    composedRisk, baseChance, timeRisk, sizeRisk, greedRisk,
    closeAt_replicate_unit, GRACE_PERIOD_CANDLES, RAMP_UP_PERIOD,
    positionSizeRatio, TRADING_FEE_RATE, Player.make, min_def]

/-- Witness for C4: the concrete buy-and-hold run above survives its
one-candle hold window and exits normally with `gross = 0`,
`fee = 1000 × 0.2 × 0.002 = 0.4`, `net = -0.4`. -/
theorem normal_trade_accounting_witness :
    buyAndHoldCore (Player.make "hodl" 1000) data161 (halfRng 0) =
      ([.completed ⟨160, 160, 1, 1, 0, -(0.4 : ℝ), 0.4⟩],
        { Player.make "hodl" 1000 with
            balance := 999.6, total_fees_paid := 0.4, total_trades := 1 },
        halfRng 2) ∧
    NormalExitOK (Player.make "hodl" 1000)
      { Player.make "hodl" 1000 with
          balance := 999.6, total_fees_paid := 0.4, total_trades := 1 }
      ⟨160, 160, 1, 1, 0, -(0.4 : ℝ), 0.4⟩
      ((Player.make "hodl" 1000).balance * positionSizeRatio) :=
  ⟨buyAndHold_run_completed,
    normal_trade_accounting.2.1 data161 (Player.make "hodl" 1000) (halfRng 0)
      _ _ (halfRng 2) buyAndHold_run_completed⟩

set_option maxHeartbeats 4000000 in
set_option maxRecDepth 100000 in
/-- **C2** is refuted on the scalper: in this concrete run the scalper
executes 5 positions, all of which reach a normal exit (the player's
cumulative trade counter rises from 0 to 5), yet the strategy returns an
empty trade-record list — the source computes the exit bookkeeping but
never appends a record to `trades`.  The claim says the number of
returned records equals the increase of the trade counter. -/
theorem scalper_drops_completed_trades :
    (scalper (Player.make "scalper" 1000) data170 (centRng 0)).1 = [] ∧
    (scalper (Player.make "scalper" 1000) data170 (centRng 0)).2.1.total_trades =
      (Player.make "scalper" 1000).total_trades + 5 := by
  norm_num [scalper, scalperCore, scalperLoop, scalperStep, data170, randIntNat,
    Rng.next, centRng, holdScan,
    check_liquidation, calcLiqProbRng, calculate_liquidation_probability,
    composedRisk, baseChance, timeRisk, sizeRisk, greedRisk,
    closeAt_replicate_unit, GRACE_PERIOD_CANDLES, RAMP_UP_PERIOD,
    positionSizeRatio, TRADING_FEE_RATE, Player.make, min_def,
    nfloor_zero ((11:ℝ)/100) (by norm_num),
    nfloor_zero ((1:ℝ)/100) (by norm_num),
    nfloor_zero ((26:ℝ)/100) (by norm_num),
    nfloor_zero ((13:ℝ)/50) (by norm_num)]

set_option maxHeartbeats 2000000 in
set_option maxRecDepth 100000 in
/-- **C3** is refuted: in this concrete round the single random-trader
player is liquidated once (`liquidations_suffered` rises from 0 to 1),
but the per-round liquidation count computed by
`sum(1 for p in all_players if hasattr(p, '_round_liquidations'))` is 0,
because no code path ever sets the `_round_liquidations` attribute. -/
theorem round_liquidation_count_zero :
    (playRound [Player.make "random" 1000] data200 (quarterThenZeroRng 0)).2.2.1 = 0 ∧
    ((playRound [Player.make "random" 1000] data200 (quarterThenZeroRng 0)).1.map
      (fun p => p.liquidations_suffered)) = [1] := by
  norm_num [playRound, roundLoop, strategyFor, random_trader, randomTraderCore,
    randomTraderLoop, numTradesChoice, tradeStep, data200, randIntNat,
    Rng.next, quarterThenZeroRng, holdScan,
    check_liquidation, calcLiqProbRng, calculate_liquidation_probability,
    composedRisk, baseChance, timeRisk, sizeRisk, greedRisk,
    closeAt_replicate_unit, GRACE_PERIOD_CANDLES, RAMP_UP_PERIOD,
    positionSizeRatio, TRADING_FEE_RATE, Player.make, min_def, completedTrades]

end
